import Mathlib

/-!
Verification of the capstone loan-fraud repository.

Python strings are modelled as `List Char` (sequences of Unicode scalar
values).  The two behaviours under study in `src/agents/narrative_agent.py`
are the request builder (lines 76-83) and the report post-processing
(lines 111-121); `src/mcp.py` supplies the two stub tool endpoints and the
`src/data_schemas` package the validated record constructors.
-/

namespace Capstone

/-- Character data of a Lean string literal, used to transcribe the Python
string literals of the source. -/
def strLit (s : String) : List Char := s.data

/-- The whitespace class of Python `str.strip()`: ASCII whitespace
(TAB..CR, SPACE, FS..US) plus the Unicode space code points recognised by
`str.isspace`. -/
def pyIsSpace (c : Char) : Bool :=
  let n := c.toNat
  (9 ≤ n && n ≤ 13) || n == 32 || (28 ≤ n && n ≤ 31) || n == 0x85 || n == 0xa0 ||
    n == 0x1680 || (0x2000 ≤ n && n ≤ 0x200a) || n == 0x2028 || n == 0x2029 ||
    n == 0x202f || n == 0x205f || n == 0x3000

/-- Python `str.strip()`: drop the maximal whitespace prefix and suffix. -/
def pyStrip (s : List Char) : List Char :=
  ((s.dropWhile pyIsSpace).reverse.dropWhile pyIsSpace).reverse

/-- Whether `l` is a leading segment of the second list. -/
def beginsWith : List Char → List Char → Bool
  | [], _ => true
  | _ :: _, [] => false
  | c :: p, x :: s => x == c && beginsWith p s

/-- Python's substring test `needle in haystack`. -/
def occursIn (l : List Char) : List Char → Bool
  | [] => l.isEmpty
  | c :: t => beginsWith l (c :: t) || occursIn l t

/-- The three section labels checked by `NarrativeAgent.generate_report`
(narrative_agent.py line 114). -/
def requiredHeaders : List (List Char) :=
  [strLit "Identity Fraud Risk", strLit "Paystub Fraud Risk",
   strLit "Overall Application Risk"]

/-- The guard `any(h in content for h in [...])` of line 114. -/
def labelPresent (content : List Char) : Bool :=
  requiredHeaders.any (fun h => occursIn h content)

/-- The three-section wrapper built on lines 115-119: the original content
is embedded under "Identity Fraud Risk" followed by the two placeholder
sections. -/
def wrapReport (content : List Char) : List Char :=
  strLit "Identity Fraud Risk:\n" ++ content ++
    strLit "\n\nPaystub Fraud Risk:\n(see analysis above)\n\nOverall Application Risk:\n(see analysis above)\n"

/-- Lines 111-121 of narrative_agent.py: the model response's message
content (`Option` models Python `None`) is defaulted to the empty string,
stripped, and wrapped into the three-section skeleton when no required
section label occurs in it. -/
def postProcessReport (messageContent : Option (List Char)) : List Char :=
  let content := pyStrip (messageContent.getD [])
  if labelPresent content then content else wrapReport content

/-! ## JSON values

The request builder of `generate_report` (narrative_agent.py lines 76-83)
relies on the standard library's `json.loads` and `json.dumps`.  `Json`
models the values those functions exchange.  An integer token becomes
`num` (Python builds an `int` from it); a token carrying a fraction or an
exponent becomes `flt` (Python builds a `float`), kept exactly as its
decimal reading: a sign, a magnitude and a power-of-ten exponent, so that
`flt neg mag e` stands for `(-1)^neg * mag * 10^e` with the sign separate
because the float `-0.0` is distinct from `0.0` and prints with its sign.
`nan`/`inf` model the non-standard constants `NaN`, `Infinity` and
`-Infinity` that the Python module accepts and emits by default.  Objects
keep their members as an ordered association list, the faithful image of
the serialized text. -/

inductive Json where
  | null
  | bool (b : Bool)
  | nan
  | inf (neg : Bool)
  | num (n : Int)
  | flt (neg : Bool) (mag : Nat) (exponent : Int)
  | str (s : List Char)
  | arr (elements : List Json)
  | obj (members : List (List Char × Json))

/-! ### Serialization, mirroring `json.dumps` with its default options
(`ensure_ascii=True`, separators `", "` and `": "`). -/

/-- Lowercase hexadecimal digit, as CPython's `\uXXXX` escapes use. -/
def hexDigitChar (n : Nat) : Char :=
  if n < 10 then Char.ofNat (48 + n) else Char.ofNat (87 + n)

/-- Four-digit hexadecimal rendering of `n < 0x10000`. -/
def hex4 (n : Nat) : List Char :=
  [hexDigitChar (n / 4096 % 16), hexDigitChar (n / 256 % 16),
   hexDigitChar (n / 16 % 16), hexDigitChar (n % 16)]

/-- Escaping of one character inside a JSON string literal, following
`json.encoder` with `ensure_ascii=True`: the named short escapes, `\uXXXX`
for other control and non-ASCII characters, and a surrogate pair for
characters beyond the basic multilingual plane. -/
def escapeChar (c : Char) : List Char :=
  if c == '"' then ['\\', '"']
  else if c == '\\' then ['\\', '\\']
  else if c == '\n' then ['\\', 'n']
  else if c == '\t' then ['\\', 't']
  else if c == '\r' then ['\\', 'r']
  else if c == '\x08' then ['\\', 'b']
  else if c == '\x0c' then ['\\', 'f']
  else if c.toNat < 0x20 then '\\' :: 'u' :: hex4 c.toNat
  else if c.toNat < 0x7f then [c]
  else if c.toNat < 0x10000 then '\\' :: 'u' :: hex4 c.toNat
  else ('\\' :: 'u' :: hex4 (0xd800 + (c.toNat - 0x10000) / 0x400)) ++
       ('\\' :: 'u' :: hex4 (0xdc00 + (c.toNat - 0x10000) % 0x400))

/-- Escaping of a whole string body. -/
def escapeString (s : List Char) : List Char := (s.map escapeChar).flatten

/-- Decimal digits of `n`, most significant first, with fuel to keep the
recursion structural (`natDigitsRev f n` is `Nat.digits 10 n` whenever
`n ≤ f`). -/
def natDigitsRev : Nat → Nat → List Nat
  | _, 0 => []
  | 0, _ + 1 => []
  | f + 1, n + 1 => (n + 1) % 10 :: natDigitsRev f ((n + 1) / 10)

/-- Decimal rendering of a natural number. -/
def natLit (n : Nat) : List Char :=
  if n = 0 then ['0'] else ((natDigitsRev n n).map (fun d => Char.ofNat (48 + d))).reverse

/-- Decimal rendering of an integer. -/
def intLit (i : Int) : List Char :=
  if i < 0 then '-' :: natLit i.natAbs else natLit i.natAbs

/-- Fixed-point rendering of the digit string `ds` with `fr` digits after
the point (`fr ≥ 1`): either the point splits `ds`, or the value is below
one and the fraction is zero-padded on the left, as CPython's
`format_float_short` lays digits out. -/
def fixedText (ds : List Char) (fr : Nat) : List Char :=
  if fr < ds.length then ds.take (ds.length - fr) ++ '.' :: ds.drop (ds.length - fr)
  else '0' :: '.' :: (List.replicate (fr - ds.length) '0' ++ ds)

/-- Digits of a scientific-notation exponent, zero-padded to at least two
digits as CPython's float formatting emits (`1e-05`, `1e+16`). -/
def expDigits (n : Nat) : List Char :=
  if n < 10 then '0' :: natLit n else natLit n

/-- Exponent suffix `±XX` of scientific notation, always signed. -/
def expText (x : Int) : List Char :=
  (if x < 0 then '-' else '+') :: expDigits x.natAbs

/-- Scientific rendering `d[.ddd]e±XX` of the digit string `ds` whose
value is `0.ds · 10 ^ decpt`; a single digit carries no fraction
(CPython prints `1e+16`, not `1.0e+16`). -/
def sciText (ds : List Char) (decpt : Int) : List Char :=
  ds.take 1 ++ (if ds.length ≤ 1 then [] else '.' :: ds.drop 1) ++ 'e' :: expText (decpt - 1)

/-- Rendering of the float value `mag * 10 ^ e` (sign handled by the
caller), following CPython's `repr` format selection: fixed-point when
the decimal point lands in `-4 < decpt ≤ 16`, scientific notation
otherwise.  On every value the parser reads the text back to exactly
`(mag, e)`, and on the image of a Python float it is the float's `repr`
(theorem `dumpJson_pyFloat` below). -/
def fltLit (mag : Nat) (e : Int) : List Char :=
  if e < 0 ∧ -4 < ((natLit mag).length : Int) + e ∧ ((natLit mag).length : Int) + e ≤ 16 then
    fixedText (natLit mag) e.natAbs
  else sciText (natLit mag) (((natLit mag).length : Int) + e)

mutual
/-- `json.dumps` of a value, with the module's default separators. -/
def dumpJson : Json → List Char
  | Json.null => strLit "null"
  | Json.bool true => strLit "true"
  | Json.bool false => strLit "false"
  | Json.nan => strLit "NaN"
  | Json.inf true => strLit "-Infinity"
  | Json.inf false => strLit "Infinity"
  | Json.num n => intLit n
  | Json.flt neg mag e => (if neg then ['-'] else []) ++ fltLit mag e
  | Json.str s => '"' :: escapeString s ++ ['"']
  | Json.arr es => '[' :: dumpElems es ++ [']']
  | Json.obj ms => '\x7b' :: dumpMembers ms ++ ['\x7d']

/-- Array elements joined by `", "`. -/
def dumpElems : List Json → List Char
  | [] => []
  | [j] => dumpJson j
  | j :: js => dumpJson j ++ ',' :: ' ' :: dumpElems js

/-- Object members `"key": value` joined by `", "`. -/
def dumpMembers : List (List Char × Json) → List Char
  | [] => []
  | [(k, v)] => '"' :: escapeString k ++ '"' :: ':' :: ' ' :: dumpJson v
  | (k, v) :: ms =>
      ('"' :: escapeString k ++ '"' :: ':' :: ' ' :: dumpJson v) ++ ',' :: ' ' :: dumpMembers ms
end

/-! ### Parsing, mirroring `json.loads`. -/

/-- The whitespace skipped by `json.loads` between tokens. -/
def jsonWs (c : Char) : Bool := c == ' ' || c == '\t' || c == '\n' || c == '\r'

/-- Skip inter-token whitespace. -/
def skipWs (s : List Char) : List Char := s.dropWhile jsonWs

/-- Whether the list starts with the character `c`. -/
def headIs (c : Char) : List Char → Bool
  | [] => false
  | x :: _ => x == c

/-- Consume the literal `p` from the front of `s`. -/
def dropLit : List Char → List Char → Option (List Char)
  | [], s => some s
  | _ :: _, [] => Option.none
  | c :: p, x :: s => if x == c then dropLit p s else Option.none

/-- Value of one hexadecimal digit. -/
def hexVal (c : Char) : Option Nat :=
  if '0' ≤ c ∧ c ≤ '9' then some (c.toNat - 48)
  else if 'a' ≤ c ∧ c ≤ 'f' then some (c.toNat - 87)
  else if 'A' ≤ c ∧ c ≤ 'F' then some (c.toNat - 55)
  else Option.none

/-- Value of a four-digit hexadecimal escape. -/
def hex4Val (h1 h2 h3 h4 : Char) : Option Nat :=
  match hexVal h1, hexVal h2, hexVal h3, hexVal h4 with
  | some a, some b, some c, some d => some (4096 * a + 256 * b + 16 * c + d)
  | _, _, _, _ => Option.none

/-- The named short escapes `\" \\ \/ \b \f \n \r \t`. -/
def escTable (e : Char) : Option Char :=
  if e == '"' then some '"'
  else if e == '\\' then some '\\'
  else if e == '/' then some '/'
  else if e == 'b' then some '\x08'
  else if e == 'f' then some '\x0c'
  else if e == 'n' then some '\n'
  else if e == 'r' then some '\r'
  else if e == 't' then some '\t'
  else Option.none

/-- Prepend a decoded character to a string-body parse result. -/
def pushChar (c : Char) : Option (List Char × List Char) → Option (List Char × List Char)
  | Option.none => Option.none
  | some (cs, r) => some (c :: cs, r)

mutual
/-- Parse the body of a JSON string literal after its opening quote, up to
and including the closing quote, as `json.loads` does in strict mode: raw
control characters are rejected, escapes are decoded, and a `\uXXXX`
escape carrying a high surrogate must be completed by a low surrogate. -/
def parseStringBody : List Char → Option (List Char × List Char)
  | [] => Option.none
  | c :: r =>
    if c == '"' then some ([], r)
    else if c == '\\' then parseEscape r
    else if c.toNat < 0x20 then Option.none
    else pushChar c (parseStringBody r)

/-- Decode one backslash escape. -/
def parseEscape : List Char → Option (List Char × List Char)
  | [] => Option.none
  | e :: r1 =>
    if e == 'u' then parseUEscape r1
    else
      match escTable e with
      | some ec => pushChar ec (parseStringBody r1)
      | Option.none => Option.none

/-- Decode the four hex digits of a `\uXXXX` escape; a high surrogate must
be followed by an escaped low surrogate, a lone low surrogate is
rejected. -/
def parseUEscape : List Char → Option (List Char × List Char)
  | h1 :: h2 :: h3 :: h4 :: r2 =>
    match hex4Val h1 h2 h3 h4 with
    | Option.none => Option.none
    | some v =>
      if 0xd800 ≤ v ∧ v ≤ 0xdbff then parseLowSur v r2
      else if 0xdc00 ≤ v ∧ v ≤ 0xdfff then Option.none
      else pushChar (Char.ofNat v) (parseStringBody r2)
  | _ => Option.none

/-- Combine the high surrogate `v` with the low surrogate that must come
next as another `\uXXXX` escape. -/
def parseLowSur (v : Nat) : List Char → Option (List Char × List Char)
  | b :: u :: l1 :: l2 :: l3 :: l4 :: r3 =>
    if b == '\\' && u == 'u' then
      match hex4Val l1 l2 l3 l4 with
      | Option.none => Option.none
      | some w =>
        if 0xdc00 ≤ w ∧ w ≤ 0xdfff then
          pushChar (Char.ofNat (0x10000 + (v - 0xd800) * 0x400 + (w - 0xdc00)))
            (parseStringBody r3)
        else Option.none
    else Option.none
  | _ => Option.none
end

/-- Longest digit run at the front, and the remainder. -/
def readDigits (s : List Char) : List Char × List Char :=
  (s.takeWhile Char.isDigit, s.dropWhile Char.isDigit)

/-- Numeric value of a digit run, most significant first. -/
def digitsToNat (ds : List Char) : Nat :=
  ds.foldl (fun a c => a * 10 + (c.toNat - 48)) 0

/-- Integer part of a JSON number after the optional sign: `0`, or a
nonzero digit followed by more digits, as the scanner's regular
expression `(?:0|[1-9]\d*)` demands. -/
def parseIntPart : List Char → Option (List Char × List Char)
  | [] => Option.none
  | c :: r =>
    if c == '0' then some (['0'], r)
    else if c.isDigit then some (readDigits (c :: r))
    else Option.none

/-- Optional fraction `(\.\d+)?`; like the regular expression it consumes
nothing when no digit follows the dot. -/
def parseFrac (s : List Char) : List Char × List Char :=
  if headIs '.' s then
    let p := readDigits s.tail
    if p.1 = [] then ([], s) else p
  else ([], s)

/-- Optional exponent `([eE][-+]?\d+)?`, again backtracking when no digit
follows; `Option.none` in the first component records that the group did
not match. -/
def parseExp (s : List Char) : Option Int × List Char :=
  if headIs 'e' s || headIs 'E' s then
    let r := s.tail
    let sr : Bool × List Char :=
      if headIs '+' r then (false, r.tail)
      else if headIs '-' r then (true, r.tail) else (false, r)
    let p := readDigits sr.2
    if p.1 = [] then (Option.none, s)
    else (some (if sr.1 then -(digitsToNat p.1 : Int) else (digitsToNat p.1 : Int)), p.2)
  else (Option.none, s)

/-- Combine the parsed parts of a number token after the sign.  As in the
scanner, a token with neither fraction nor exponent group is handed to
`int` and becomes `num`; any other token is handed to `float` and becomes
`flt`, read exactly as its decimal value. -/
def parseNumberTail (neg : Bool) : Option (List Char × List Char) → Option (Json × List Char)
  | Option.none => Option.none
  | some (ids, s2) =>
    let fp := parseFrac s2
    let ep := parseExp fp.2
    if fp.1 = [] ∧ ep.1 = Option.none then
      some (Json.num (if neg then -(digitsToNat ids : Int) else (digitsToNat ids : Int)), ep.2)
    else
      some (Json.flt neg (digitsToNat (ids ++ fp.1)) (ep.1.getD 0 - fp.1.length), ep.2)

/-- Parse a JSON number token into its exact decimal value. -/
def parseNumber (s : List Char) : Option (Json × List Char) :=
  let ns : Bool × List Char := if headIs '-' s then (true, s.tail) else (false, s)
  parseNumberTail ns.1 (parseIntPart ns.2)

/-- Parse the elements of a non-empty array given the value parser `pv`;
the fuel bounds the number of elements. -/
def parseElemsF (pv : List Char → Option (Json × List Char)) :
    Nat → List Char → Option (List Json × List Char)
  | 0, _ => Option.none
  | fuel + 1, s =>
    match pv s with
    | Option.none => Option.none
    | some (j, r) =>
      match skipWs r with
      | [] => Option.none
      | c :: r' =>
        if c == ',' then
          match parseElemsF pv fuel r' with
          | some (js, r'') => some (j :: js, r'')
          | Option.none => Option.none
        else if c == ']' then some ([j], r')
        else Option.none

/-- Parse the members of a non-empty object given the value parser. -/
def parseMembersF (pv : List Char → Option (Json × List Char)) :
    Nat → List Char → Option (List (List Char × Json) × List Char)
  | 0, _ => Option.none
  | fuel + 1, s =>
    match skipWs s with
    | [] => Option.none
    | c :: r =>
      if c == '"' then
        match parseStringBody r with
        | Option.none => Option.none
        | some (k, r1) =>
          match skipWs r1 with
          | [] => Option.none
          | c2 :: r2 =>
            if c2 == ':' then
              match pv r2 with
              | Option.none => Option.none
              | some (v, r3) =>
                match skipWs r3 with
                | [] => Option.none
                | c3 :: r4 =>
                  if c3 == ',' then
                    match parseMembersF pv fuel r4 with
                    | some (ms, r5) => some ((k, v) :: ms, r5)
                    | Option.none => Option.none
                  else if c3 == '\x7d' then some ([(k, v)], r4)
                  else Option.none
            else Option.none
      else Option.none

/-- Attach a remainder to a recognised constant. -/
def jpair (j : Json) : Option (List Char) → Option (Json × List Char)
  | Option.none => Option.none
  | some r => some (j, r)

/-- Parse one JSON value, dispatching on its first non-blank character as
`json.scanner` does; the fuel bounds the nesting depth. -/
def parseValue : Nat → List Char → Option (Json × List Char)
  | 0, _ => Option.none
  | fuel + 1, s0 =>
    match skipWs s0 with
    | [] => Option.none
    | c :: r =>
      if c == 'n' then jpair Json.null (dropLit (strLit "ull") r)
      else if c == 't' then jpair (Json.bool true) (dropLit (strLit "rue") r)
      else if c == 'f' then jpair (Json.bool false) (dropLit (strLit "alse") r)
      else if c == 'N' then jpair Json.nan (dropLit (strLit "aN") r)
      else if c == 'I' then jpair (Json.inf false) (dropLit (strLit "nfinity") r)
      else if c == '"' then
        match parseStringBody r with
        | some (cs, r') => some (Json.str cs, r')
        | Option.none => Option.none
      else if c == '[' then
        let r1 := skipWs r
        if headIs ']' r1 then some (Json.arr [], r1.tail)
        else
          match parseElemsF (parseValue fuel) fuel r1 with
          | some (es, r') => some (Json.arr es, r')
          | Option.none => Option.none
      else if c == '\x7b' then
        let r1 := skipWs r
        if headIs '\x7d' r1 then some (Json.obj [], r1.tail)
        else
          match parseMembersF (parseValue fuel) fuel r1 with
          | some (ms, r') => some (Json.obj ms, r')
          | Option.none => Option.none
      else if c == '-' then
        match dropLit (strLit "Infinity") r with
        | some r' => some (Json.inf true, r')
        | Option.none => parseNumber (c :: r)
      else parseNumber (c :: r)

/-- `json.loads`: parse one document and demand that only whitespace
follows it. -/
def jsonParse (s : List Char) : Option Json :=
  match parseValue (s.length + 1) s with
  | some (j, r) => if skipWs r = [] then some j else Option.none
  | Option.none => Option.none

/-- A remainder that cannot extend a number token: empty, or starting
with a character that is neither a digit nor `.`/`e`/`E`. -/
def numStopper : List Char → Bool
  | [] => true
  | c :: _ => !(c.isDigit || c == '.' || c == 'e' || c == 'E')

mutual
/-- Fuel sufficient for `parseValue` to parse the document `j`. -/
def fuelJson : Json → Nat
  | Json.arr es => fuelList es + 1
  | Json.obj ms => fuelMembers ms + 1
  | _ => 1

/-- Fuel sufficient for the elements of an array. -/
def fuelList : List Json → Nat
  | [] => 0
  | j :: js => max (fuelJson j) (fuelList js) + 1

/-- Fuel sufficient for the members of an object. -/
def fuelMembers : List (List Char × Json) → Nat
  | [] => 0
  | (_, v) :: ms => max (fuelJson v) (fuelMembers ms) + 1
end

/-! ## The request builder and the report operation -/

/-- A Python float as `json.dumps` meets it: the specials `nan` and
`inf`, or a finite value identified by the output of the shortest-repr
algorithm CPython's `repr` is built on (`_Py_dg_dtoa`, mode 0): the sign
bit, the shortest digit string as a natural number (it never ends in a
zero digit), and the decimal exponent `decpt` placing the point, the
value being `±0.digits * 10 ^ decpt`.  Distinct finite doubles have
distinct triples (shortest repr is injective, and the sign separates
`-0.0` from `0.0`, for which dtoa reports digits `0` and decpt 1). -/
inductive PyFloat where
  | nan
  | inf (neg : Bool)
  | finite (neg : Bool) (digits : Nat) (decpt : Int)

/-- CPython's `format_float_short` laying out `repr` of a finite float
(`pystrtod.c`, format code `r` with `Py_DTSF_ADD_DOT_0`): zero prints
`0.0`; fixed-point notation when `-4 < decpt ≤ 16`, the digits padded
with zeros up to the point and given at least one fractional digit;
scientific notation `d[.ddd]e±XX` otherwise, the exponent `decpt - 1`
signed and zero-padded to two digits. -/
def reprFinite (digits : Nat) (decpt : Int) : List Char :=
  if digits = 0 then strLit "0.0"
  else if -4 < decpt ∧ decpt ≤ 16 then
    if ((natLit digits).length : Int) ≤ decpt then
      natLit digits ++ List.replicate (decpt - (natLit digits).length).toNat '0' ++ ['.', '0']
    else if 0 < decpt then
      (natLit digits).take decpt.toNat ++ '.' :: (natLit digits).drop decpt.toNat
    else '0' :: '.' :: (List.replicate (-decpt).toNat '0' ++ natLit digits)
  else sciText (natLit digits) decpt

/-- The text `json.dumps` emits for a float (`json.encoder`'s
`floatstr`): the constants for the specials — the module's default
`allow_nan=True` — and `repr` with its sign for finite values. -/
def floatText : PyFloat → List Char
  | PyFloat.nan => strLit "NaN"
  | PyFloat.inf true => strLit "-Infinity"
  | PyFloat.inf false => strLit "Infinity"
  | PyFloat.finite neg d p => (if neg then ['-'] else []) ++ reprFinite d p

/-- The `Json` value a float contributes to the document: the exact
decimal reading of its `repr` text, so parsing the output recovers it.
Fixed-point reprs of integral values read back with the trailing `.0`
absorbed into the magnitude; all other forms read back as the shortest
digits with the exponent `decpt - length`. -/
def pyFloatJson : PyFloat → Json
  | PyFloat.nan => Json.nan
  | PyFloat.inf b => Json.inf b
  | PyFloat.finite neg d p =>
    if d = 0 then Json.flt neg 0 (-1)
    else if (-4 < p ∧ p ≤ 16) ∧ ((natLit d).length : Int) ≤ p then
      Json.flt neg (d * 10 ^ (p - (natLit d).length + 1).toNat) (-1)
    else Json.flt neg d (p - (natLit d).length)

/-- A dict key `json.dumps` can serialize.  The encoder coerces
non-string keys of exactly these types to strings and raises `TypeError`
for any other key type (the `default` hook is never applied to keys), so
these are the key types on which the builder's serialization is
defined. -/
inductive PyKey where
  | str (s : List Char)
  | int (n : Int)
  | float (f : PyFloat)
  | bool (b : Bool)
  | none

/-- The string a key is coerced to (`json.encoder._make_iterencode` and
the C encoder agree): `str` for ints, `floatstr` for floats, the JSON
constants for booleans and `None`. -/
def pyKeyStr : PyKey → List Char
  | PyKey.str s => s
  | PyKey.int n => intLit n
  | PyKey.float f => floatText f
  | PyKey.bool true => strLit "true"
  | PyKey.bool false => strLit "false"
  | PyKey.none => strLit "null"

/-- A Python value that can reach `json.dumps(..., default=str)`: the
JSON-serializable types — `None`, booleans, ints, floats (`PyFloat`),
strings, lists (tuples serialize identically), and dicts with
serializable keys (`PyKey`) — and `object r` for any other value, which
`default=str` replaces by its string representation `r`. -/
inductive PyValue where
  | none
  | bool (b : Bool)
  | int (n : Int)
  | float (f : PyFloat)
  | str (s : List Char)
  | list (items : List PyValue)
  | dict (entries : List (PyKey × PyValue))
  | object (reprText : List Char)

mutual
/-- The JSON document `json.dumps(v, default=str)` serializes: the
identity embedding except that non-serializable objects are coerced to
their string representation, non-string dict keys to strings, and floats
to the exact decimal value of their `repr`. -/
def pyToJson : PyValue → Json
  | PyValue.none => Json.null
  | PyValue.bool b => Json.bool b
  | PyValue.int n => Json.num n
  | PyValue.float f => pyFloatJson f
  | PyValue.str s => Json.str s
  | PyValue.list xs => Json.arr (pyListToJson xs)
  | PyValue.dict es => Json.obj (pyDictToJson es)
  | PyValue.object r => Json.str r

/-- Elementwise coercion of a list. -/
def pyListToJson : List PyValue → List Json
  | [] => []
  | v :: vs => pyToJson v :: pyListToJson vs

/-- Entrywise coercion of a dict's items, keys coerced to strings. -/
def pyDictToJson : List (PyKey × PyValue) → List (List Char × Json)
  | [] => []
  | (k, v) :: es => (pyKeyStr k, pyToJson v) :: pyDictToJson es
end

/-- The `Union[Dict[str, Any], str]` argument of `generate_report`; the
dict side keeps its entries in insertion order, as a Python dict does. -/
inductive Application where
  | ofDict (entries : List (PyKey × PyValue))
  | ofStr (raw : List Char)

/-- The request builder of `generate_report` (narrative_agent.py lines
76-83): a string argument is passed through when it already parses as
JSON and wrapped as `raw_application` otherwise; a dict argument is
serialized with `default=str`. -/
def buildAppPayload : Application → List Char
  | Application.ofStr s =>
    match jsonParse s with
    | some _ => s
    | Option.none => dumpJson (Json.obj [(strLit "raw_application", Json.str s)])
  | Application.ofDict entries => dumpJson (pyToJson (PyValue.dict entries))

/-- The chat completion answer consumed on line 111;
`content = Option.none` models a null `message.content`. -/
structure ChatResponse where
  content : Option (List Char)

/-- `NarrativeAgent.generate_report` as a function of the remote model's
answer: the payload built from the application is sent (first component)
and the post-processed response text is returned (second component). -/
def generate_report (application : Application) (resp : ChatResponse) :
    List Char × List Char :=
  (buildAppPayload application, postProcessReport resp.content)

/-! ## Client construction (narrative_agent.py lines 62-72) -/

/-- The only state the constructor builds after the credential check. -/
structure OpenAIClient where
  api_key : List Char

/-- The fields `NarrativeAgent.__init__` stores. -/
structure NarrativeAgentState where
  model : List Char
  temperature : Rat
  client : OpenAIClient

/-- Python truthiness of `os.getenv`'s result: `None` and the empty
string are falsy. -/
def envTruthy : Option (List Char) → Bool
  | Option.none => false
  | some s => !s.isEmpty

/-- `NarrativeAgent.__init__`: after `load_dotenv`, the environment
lookup function `env` models `os.getenv` over the merged environment.
When `GEMINI_API_KEY` is missing (or empty) a `RuntimeError` is raised —
modelled as `Except.error` — before the network client is ever
constructed; the `OpenAIClient` value exists only in the success branch. -/
def narrativeAgentInit (env : List Char → Option (List Char))
    (model : List Char) (temperature : Rat) :
    Except (List Char) NarrativeAgentState :=
  let api_key := env (strLit "GEMINI_API_KEY")
  if envTruthy api_key then
    Except.ok
      { model := model, temperature := temperature,
        client := { api_key := api_key.getD [] } }
  else
    Except.error (strLit "GEMINI_API_KEY not set. Add it to your environment or .env")

/-! ## Tool endpoints (mcp.py lines 16-33) -/

/-- The response shape of the two tools: a success-status object or an
error-shaped object. -/
inductive ToolResponse where
  | status (message : List Char)
  | error (message : List Char)
deriving DecidableEq

/-- The `try`/`except` wrapper both handlers share: an exception raised by
the body is caught and converted to an error-shaped response built from
the handler's message format. -/
def toolGuard (fmt : List Char → List Char)
    (body : Except (List Char) ToolResponse) : ToolResponse :=
  match body with
  | Except.ok r => r
  | Except.error e => ToolResponse.error (fmt e)

/-- Body of `verify_paystub` (mcp.py lines 18-20): no verification logic
is implemented; it returns the success placeholder and cannot throw. -/
def verify_paystub_body (_paystub : PyValue) : Except (List Char) ToolResponse :=
  Except.ok (ToolResponse.status (strLit "Paystub verified successfully"))

/-- The `verify_paystub` tool (mcp.py lines 16-24). -/
def verify_paystub (paystub : PyValue) : ToolResponse :=
  toolGuard (fun e => strLit "Exception in verify_paystub: " ++ e)
    (verify_paystub_body paystub)

/-- Body of `verify_id` (mcp.py lines 28-30). -/
def verify_id_body (_id : PyValue) : Except (List Char) ToolResponse :=
  Except.ok (ToolResponse.status (strLit "ID verified successfully"))

/-- The `verify_id` tool (mcp.py lines 26-33). -/
def verify_id (idDoc : PyValue) : ToolResponse :=
  toolGuard (fun e => strLit "Exception in verify_id api call: " ++ e)
    (verify_id_body idDoc)

/-! ## Record schemas (src/data_schemas)

The pydantic models validate at construction.  Inputs are given as
already-typed optional values, so the validation modelled here is exactly
presence of required fields and membership of the `Literal` enumerations;
a failed validation is `Except.error`. -/

/-- A calendar date (`datetime.date`). -/
structure PyDate where
  year : Int
  month : Nat
  day : Nat
deriving DecidableEq

/-- The `Literal` enumeration of `Employment.pay_frequency`
(employment.py line 8). -/
def PAY_FREQUENCIES : List (List Char) :=
  [strLit "weekly", strLit "biweekly", strLit "semimonthly", strLit "monthly"]

/-- Validated `Employment` record (employment.py lines 5-9). -/
structure Employment where
  employer_name : List Char
  start_date : Option PyDate
  pay_frequency : Option (List Char)
  annual_salary_claimed : Option Rat

/-- Whether a supplied `pay_frequency` passes the `Literal` check; an
absent optional field always passes. -/
def payFreqOk : Option (List Char) → Bool
  | Option.none => true
  | some f => PAY_FREQUENCIES.contains f

/-- Construction of `Employment`: `employer_name` is required,
`pay_frequency` must be absent or in the enumeration. -/
def mkEmployment (employer_name : Option (List Char)) (start_date : Option PyDate)
    (pay_frequency : Option (List Char)) (annual_salary_claimed : Option Rat) :
    Except (List Char) Employment :=
  match employer_name with
  | Option.none => Except.error (strLit "employer_name: field required")
  | some en =>
    if payFreqOk pay_frequency then
      Except.ok
        { employer_name := en, start_date := start_date,
          pay_frequency := pay_frequency,
          annual_salary_claimed := annual_salary_claimed }
    else
      Except.error (strLit "pay_frequency: value is not a permitted literal")

/-- Validated `PaystubItem` record (paystub_item.py). -/
structure PaystubItem where
  net_pay : Rat
  ytd_gross : Option Rat
  ytd_net : Option Rat
  employer_name_on_stub : Option (List Char)
  hours : Option Rat
  taxes_withheld : Option Rat

/-- The `Literal` enumeration of `DocumentEvidence.doc_type`
(document.py line 6). -/
def DOC_TYPES : List (List Char) :=
  [strLit "driver_license", strLit "passport", strLit "ssn_card",
   strLit "utility_bill", strLit "bank_statement", strLit "paystub",
   strLit "w2", strLit "other"]

/-- Validated `DocumentEvidence` record (document.py lines 5-11). -/
structure DocumentEvidence where
  doc_type : List Char
  issuer : Option (List Char)
  id_number_masked : Option (List Char)
  issued_on : Option PyDate
  name_on_doc : Option (List Char)
  address_on_doc : Option (List Char)

/-- Validated `ApplicantProfile` record (application.py lines 8-21). -/
structure ApplicantProfile where
  first_name : List Char
  last_name : List Char
  dob : Option PyDate
  ssn_last4 : Option (List Char)
  email : Option (List Char)
  phone : Option (List Char)
  address_line1 : Option (List Char)
  address_city : Option (List Char)
  address_state : Option (List Char)
  address_postal_code : Option (List Char)
  employment : Option Employment
  paystubs : List PaystubItem
  documents : List DocumentEvidence

/-- Construction of `ApplicantProfile`: `first_name` and `last_name` are
required; the two list fields default to empty lists when absent. -/
def mkApplicantProfile (first_name last_name : Option (List Char))
    (dob : Option PyDate)
    (ssn_last4 email phone address_line1 address_city address_state
      address_postal_code : Option (List Char))
    (employment : Option Employment)
    (paystubs : Option (List PaystubItem))
    (documents : Option (List DocumentEvidence)) :
    Except (List Char) ApplicantProfile :=
  match first_name, last_name with
  | some fn, some ln =>
    Except.ok
      { first_name := fn, last_name := ln, dob := dob, ssn_last4 := ssn_last4,
        email := email, phone := phone, address_line1 := address_line1,
        address_city := address_city, address_state := address_state,
        address_postal_code := address_postal_code, employment := employment,
        paystubs := paystubs.getD [], documents := documents.getD [] }
  | _, _ => Except.error (strLit "first_name, last_name: field required")

/-! ## Substring and strip lemmas -/

theorem beginsWith_iff (l : List Char) : ∀ s, beginsWith l s = true ↔ ∃ t, s = l ++ t := by
  induction l with
  | nil => intro s; simp [beginsWith]
  | cons c p ih =>
    intro s
    cases s with
    | nil => simp [beginsWith]
    | cons x s' =>
      simp only [beginsWith, Bool.and_eq_true, beq_iff_eq, ih, List.cons_append,
        List.cons.injEq]
      constructor
      · rintro ⟨rfl, t, rfl⟩; exact ⟨t, rfl, rfl⟩
      · rintro ⟨t, rfl, rfl⟩; exact ⟨rfl, t, rfl⟩

theorem occursIn_iff (l : List Char) : ∀ s, occursIn l s = true ↔ ∃ a b, s = a ++ l ++ b := by
  intro s
  induction s with
  | nil =>
    simp only [occursIn, List.isEmpty_iff]
    constructor
    · rintro rfl; exact ⟨[], [], rfl⟩
    · rintro ⟨a, b, h⟩
      rcases List.append_eq_nil.mp h.symm with ⟨h1, h2⟩
      exact (List.append_eq_nil.mp h1).2
  | cons c t ih =>
    simp only [occursIn, Bool.or_eq_true, beginsWith_iff, ih]
    constructor
    · rintro (⟨b, h⟩ | ⟨a, b, h⟩)
      · exact ⟨[], b, by simp [h]⟩
      · exact ⟨c :: a, b, by simp [h]⟩
    · rintro ⟨a, b, h⟩
      cases a with
      | nil => exact Or.inl ⟨b, by simpa using h⟩
      | cons x a' =>
        simp only [List.cons_append, List.cons.injEq] at h
        exact Or.inr ⟨a', b, h.2⟩

theorem occursIn_dropWhile (p : Char → Bool) (c0 : Char) (l' : List Char)
    (hc : p c0 = false) :
    ∀ s, occursIn (c0 :: l') s = true → occursIn (c0 :: l') (s.dropWhile p) = true := by
  intro s
  induction s with
  | nil => intro h; simp [occursIn] at h
  | cons c t ih =>
    intro h
    rw [List.dropWhile_cons]
    by_cases hpc : p c = true
    · simp only [hpc, if_true]
      simp only [occursIn, Bool.or_eq_true] at h
      rcases h with hpre | hrec
      · exfalso
        simp only [beginsWith, Bool.and_eq_true, beq_iff_eq] at hpre
        obtain ⟨hxc, _⟩ := hpre
        rw [hxc] at hpc
        rw [hc] at hpc
        exact Bool.false_ne_true hpc
      · exact ih hrec
    · simp only [Bool.not_eq_true] at hpc
      simp [hpc, h]

theorem occursIn_reverse_iff (l s : List Char) :
    occursIn l.reverse s.reverse = true ↔ occursIn l s = true := by
  simp only [occursIn_iff]
  constructor
  · rintro ⟨a, b, h⟩
    refine ⟨b.reverse, a.reverse, ?_⟩
    have := congrArg List.reverse h
    simpa [List.reverse_append, List.append_assoc] using this
  · rintro ⟨a, b, h⟩
    refine ⟨b.reverse, a.reverse, ?_⟩
    rw [h]
    simp [List.reverse_append, List.append_assoc]

/-- The stripped string sits inside the original. -/
theorem pyStrip_embed (s : List Char) : ∃ a b, s = a ++ pyStrip s ++ b := by
  refine ⟨s.takeWhile pyIsSpace,
    ((s.dropWhile pyIsSpace).reverse.takeWhile pyIsSpace).reverse, ?_⟩
  have h1 : s = s.takeWhile pyIsSpace ++ s.dropWhile pyIsSpace :=
    (List.takeWhile_append_dropWhile pyIsSpace s).symm
  have h2 : (s.dropWhile pyIsSpace).reverse =
      (s.dropWhile pyIsSpace).reverse.takeWhile pyIsSpace ++
        (s.dropWhile pyIsSpace).reverse.dropWhile pyIsSpace :=
    (List.takeWhile_append_dropWhile pyIsSpace _).symm
  have h3 : s.dropWhile pyIsSpace =
      pyStrip s ++ ((s.dropWhile pyIsSpace).reverse.takeWhile pyIsSpace).reverse := by
    have h4 := congrArg List.reverse h2
    rw [List.reverse_reverse, List.reverse_append] at h4
    rw [pyStrip]
    exact h4
  conv_lhs => rw [h1, h3]
  rw [List.append_assoc]

/-- Stripping cannot create an occurrence. -/
theorem occursIn_of_pyStrip (l s : List Char) (h : occursIn l (pyStrip s) = true) :
    occursIn l s = true := by
  obtain ⟨a, b, hab⟩ := pyStrip_embed s
  rw [occursIn_iff] at h ⊢
  obtain ⟨a', b', h'⟩ := h
  exact ⟨a ++ a', b' ++ b, by rw [hab, h']; simp [List.append_assoc]⟩

/-- Stripping keeps every occurrence of a pattern whose first and last
characters are not whitespace. -/
theorem occursIn_pyStrip (l s : List Char) (c0 cl : Char) (l1 l2 : List Char)
    (hl : l = c0 :: l1) (hr : l.reverse = cl :: l2)
    (hc0 : pyIsSpace c0 = false) (hcl : pyIsSpace cl = false)
    (h : occursIn l s = true) : occursIn l (pyStrip s) = true := by
  subst hl
  have step1 : occursIn (c0 :: l1) (s.dropWhile pyIsSpace) = true :=
    occursIn_dropWhile pyIsSpace c0 l1 hc0 s h
  have step2 : occursIn (c0 :: l1).reverse (s.dropWhile pyIsSpace).reverse = true :=
    (occursIn_reverse_iff _ _).mpr step1
  rw [hr] at step2
  have step3 : occursIn (cl :: l2)
      ((s.dropWhile pyIsSpace).reverse.dropWhile pyIsSpace) = true :=
    occursIn_dropWhile pyIsSpace cl l2 hcl _ step2
  have step4 : occursIn (cl :: l2).reverse
      ((s.dropWhile pyIsSpace).reverse.dropWhile pyIsSpace).reverse = true :=
    (occursIn_reverse_iff _ _).mpr step3
  rw [← hr] at step4
  simpa [pyStrip] using step4

/-- Each required section label occurs in the synthesized wrapper, for any
embedded content. -/
theorem headers_in_wrap (content : List Char) :
    requiredHeaders.all (fun l => occursIn l (wrapReport content)) = true := by
  have e1 : strLit "Identity Fraud Risk:\n" =
      strLit "Identity Fraud Risk" ++ strLit ":\n" := rfl
  have e2 : strLit "\n\nPaystub Fraud Risk:\n(see analysis above)\n\nOverall Application Risk:\n(see analysis above)\n" =
      strLit "\n\n" ++ strLit "Paystub Fraud Risk" ++
        strLit ":\n(see analysis above)\n\n" ++ strLit "Overall Application Risk" ++
        strLit ":\n(see analysis above)\n" := rfl
  simp only [requiredHeaders, List.all_cons, List.all_nil, Bool.and_eq_true, and_true]
  refine ⟨?_, ?_, ?_⟩
  · rw [occursIn_iff]
    exact ⟨[], strLit ":\n" ++ content ++
      strLit "\n\nPaystub Fraud Risk:\n(see analysis above)\n\nOverall Application Risk:\n(see analysis above)\n",
      by rw [wrapReport, e1]; simp [List.append_assoc]⟩
  · rw [occursIn_iff]
    exact ⟨strLit "Identity Fraud Risk:\n" ++ content ++ strLit "\n\n",
      strLit ":\n(see analysis above)\n\n" ++ strLit "Overall Application Risk" ++
        strLit ":\n(see analysis above)\n",
      by rw [wrapReport, e2]; simp [List.append_assoc]⟩
  · rw [occursIn_iff]
    exact ⟨strLit "Identity Fraud Risk:\n" ++ content ++ strLit "\n\n" ++
        strLit "Paystub Fraud Risk" ++ strLit ":\n(see analysis above)\n\n",
      strLit ":\n(see analysis above)\n",
      by rw [wrapReport, e2]; simp [List.append_assoc]⟩

/-- At least one label is present in any wrapped report. -/
theorem labelPresent_wrap (content : List Char) :
    labelPresent (wrapReport content) = true := by
  have h := headers_in_wrap content
  simp only [requiredHeaders, List.all_cons, List.all_nil, Bool.and_eq_true] at h
  simp only [labelPresent, requiredHeaders, List.any_cons, List.any_nil, Bool.or_eq_true]
  exact Or.inl h.1

/-! ## Claims about the report post-processing -/

/-- Claim C1, as stated, is false on the code: `generate_report` checks
the three labels with `any`, so a response that already contains exactly
one label is returned unchanged and the other two labels are absent.  The
response "Identity Fraud Risk: low" is such an input: the report returned
for it is the trimmed response itself and does not contain all three
required section labels. -/
theorem claim1_counterexample :
    ¬ requiredHeaders.all
        (fun l => occursIn l
          (generate_report (Application.ofStr (strLit "ignored"))
            { content := some (strLit "Identity Fraud Risk: low") }).2) = true := by
  decide

/-- Claim C1 (amended): every string returned by `generate_report`
contains at least one of the three required section labels — either the
trimmed response already contained one, or the client rewrapped it so
that all three are present. -/
theorem claim1_amended (application : Application) (resp : ChatResponse) :
    labelPresent (generate_report application resp).2 = true := by
  show labelPresent (postProcessReport resp.content) = true
  by_cases h : labelPresent (pyStrip (resp.content.getD [])) = true
  · simp [postProcessReport, h]
  · simp only [Bool.not_eq_true] at h
    simp [postProcessReport, h, labelPresent_wrap]

/-- Claim C2: when none of the three required section labels occurs in
the model's response, the post-processed output is the three-section
wrapper; it contains all three labels and embeds the trimmed original
text verbatim under "Identity Fraud Risk". -/
theorem claim2_wrapped (s : List Char)
    (h : requiredHeaders.all (fun l => !occursIn l s) = true) :
    postProcessReport (some s) = wrapReport (pyStrip s) ∧
    requiredHeaders.all (fun l => occursIn l (postProcessReport (some s))) = true ∧
    occursIn (pyStrip s) (postProcessReport (some s)) = true := by
  have hnone : ¬ labelPresent (pyStrip s) = true := by
    intro hx
    rw [labelPresent, List.any_eq_true] at hx
    obtain ⟨l, hlmem, hocc⟩ := hx
    have hs : occursIn l s = true := occursIn_of_pyStrip l s hocc
    rw [List.all_eq_true] at h
    have hneg := h l hlmem
    rw [hs] at hneg
    simp at hneg
  have heq : postProcessReport (some s) = wrapReport (pyStrip s) := by
    simp only [postProcessReport, Option.getD_some]
    rw [if_neg hnone]
  refine ⟨heq, ?_, ?_⟩
  · rw [heq]
    exact headers_in_wrap (pyStrip s)
  · rw [heq, occursIn_iff]
    exact ⟨strLit "Identity Fraud Risk:\n",
      strLit "\n\nPaystub Fraud Risk:\n(see analysis above)\n\nOverall Application Risk:\n(see analysis above)\n",
      rfl⟩

/-- Witness for C2 at the concrete label-free response "Looks fine.". -/
theorem claim2_witness :
    postProcessReport (some (strLit "Looks fine.")) =
      wrapReport (pyStrip (strLit "Looks fine.")) ∧
    requiredHeaders.all
      (fun l => occursIn l (postProcessReport (some (strLit "Looks fine.")))) = true ∧
    occursIn (pyStrip (strLit "Looks fine."))
      (postProcessReport (some (strLit "Looks fine."))) = true :=
  claim2_wrapped (strLit "Looks fine.") (by decide)

/-- Claim C3: when at least one required section label occurs in the
model's response, `generate_report` returns the trimmed response
unchanged and adds no wrapper. -/
theorem claim3_passthrough (s : List Char) (h : labelPresent s = true) :
    postProcessReport (some s) = pyStrip s := by
  rw [labelPresent, List.any_eq_true] at h
  obtain ⟨l, hlmem, hocc⟩ := h
  have key : labelPresent (pyStrip s) = true := by
    rw [labelPresent, List.any_eq_true]
    simp only [requiredHeaders, List.mem_cons, List.not_mem_nil, or_false] at hlmem
    rcases hlmem with rfl | rfl | rfl
    · exact ⟨strLit "Identity Fraud Risk", by simp [requiredHeaders],
        occursIn_pyStrip _ s 'I' 'k' _ _ rfl rfl (by decide) (by decide) hocc⟩
    · exact ⟨strLit "Paystub Fraud Risk", by simp [requiredHeaders],
        occursIn_pyStrip _ s 'P' 'k' _ _ rfl rfl (by decide) (by decide) hocc⟩
    · exact ⟨strLit "Overall Application Risk", by simp [requiredHeaders],
        occursIn_pyStrip _ s 'O' 'k' _ _ rfl rfl (by decide) (by decide) hocc⟩
  simp only [postProcessReport, Option.getD_some]
  rw [if_pos key]

/-- Witness for C3: a response containing one label, with surrounding
whitespace, is returned exactly stripped. -/
theorem claim3_witness :
    postProcessReport (some (strLit " Identity Fraud Risk: 10 percent\n")) =
      pyStrip (strLit " Identity Fraud Risk: 10 percent\n") :=
  claim3_passthrough (strLit " Identity Fraud Risk: 10 percent\n") (by decide)

/-- Claim C10: a null (`None`) message content is defaulted to the empty
string, which contains no label, so the returned report is the full
three-section skeleton — never empty, and identical to the report for an
empty response. -/
theorem claim10_null_content :
    postProcessReport Option.none = wrapReport [] ∧
    postProcessReport (some []) = postProcessReport Option.none ∧
    postProcessReport Option.none ≠ [] ∧
    labelPresent (postProcessReport Option.none) = true := by
  refine ⟨rfl, rfl, ?_, ?_⟩ <;> decide

/-! ## Character and digit lemmas -/

theorem toNat_ofNat_valid (n : Nat) (h : n.isValidChar) : (Char.ofNat n).toNat = n := by
  rw [Char.ofNat, dif_pos h]
  rw [Char.ofNatAux]
  simp [Char.toNat, UInt32.toNat]

theorem isDigit_iff_toNat (c : Char) : c.isDigit = true ↔ 48 ≤ c.toNat ∧ c.toNat ≤ 57 := by
  simp [Char.isDigit, Char.le_def, UInt32.le_def, Char.toNat, BitVec.le_def, UInt32.toNat]

theorem isDigit_ne (c d : Char) (h : c.isDigit = true) (hd : d.isDigit = false) : c ≠ d := by
  intro he
  rw [he, hd] at h
  exact Bool.false_ne_true h

theorem beq_false_of_isDigit (c d : Char) (h : c.isDigit = true) (hd : d.isDigit = false) :
    (c == d) = false := by
  rw [beq_eq_false_iff_ne]
  exact isDigit_ne c d h hd

theorem natDigitsRev_eq_digits : ∀ f n, n ≤ f → natDigitsRev f n = Nat.digits 10 n := by
  intro f
  induction f with
  | zero =>
    intro n hn
    interval_cases n
    simp [natDigitsRev]
  | succ f ih =>
    intro n hn
    match n with
    | 0 => simp [natDigitsRev]
    | Nat.succ m =>
      show (m + 1) % 10 :: natDigitsRev f ((m + 1) / 10) = _
      rw [ih ((m + 1) / 10) (by omega),
        Nat.digits_def' (b := 10) (by norm_num) (Nat.succ_pos m)]

theorem natLit_all_digits (n : Nat) : ∀ c ∈ natLit n, c.isDigit = true := by
  intro c hc
  by_cases h : n = 0
  · subst h
    rw [show natLit 0 = ['0'] from rfl] at hc
    simp only [List.mem_singleton] at hc
    subst hc
    decide
  · rw [natLit, if_neg h, natDigitsRev_eq_digits n n le_rfl] at hc
    simp only [List.mem_reverse, List.mem_map] at hc
    obtain ⟨d, hd, rfl⟩ := hc
    have hdlt : d < 10 := Nat.digits_lt_base (by norm_num) hd
    rw [isDigit_iff_toNat, toNat_ofNat_valid _ (Or.inl (by omega))]
    omega

theorem natLit_ne_nil (n : Nat) : natLit n ≠ [] := by
  by_cases h : n = 0
  · subst h
    simp [natLit]
  · rw [natLit, if_neg h, natDigitsRev_eq_digits n n le_rfl]
    have hd : Nat.digits 10 n ≠ [] := Nat.digits_ne_nil_iff_ne_zero.mpr h
    simp [hd]

theorem natLit_head_ne_zero (n : Nat) (h : n ≠ 0) (c : Char) (t : List Char)
    (he : natLit n = c :: t) : (c == '0') = false := by
  rw [natLit, if_neg h, natDigitsRev_eq_digits n n le_rfl] at he
  have hd : Nat.digits 10 n ≠ [] := Nat.digits_ne_nil_iff_ne_zero.mpr h
  have h1 : ((Nat.digits 10 n).map (fun d => Char.ofNat (48 + d))).getLast? = some c := by
    rw [← List.head?_reverse, he]
    rfl
  rw [List.getLast?_map] at h1
  rw [List.getLast?_eq_getLast _ hd] at h1
  simp only [Option.map_some', Option.some.injEq] at h1
  have hlast := Nat.getLast_digit_ne_zero 10 h
  have hlt : (Nat.digits 10 n).getLast hd < 10 :=
    Nat.digits_lt_base (by norm_num) (List.getLast_mem hd)
  rw [beq_eq_false_iff_ne]
  intro hc0
  rw [← h1] at hc0
  have h2 := congrArg Char.toNat hc0
  rw [toNat_ofNat_valid _ (Or.inl (by omega))] at h2
  have h3 : ('0' : Char).toNat = 48 := rfl
  rw [h3] at h2
  exact hlast (by omega)

theorem digitsToNat_reverse_map (l : List Nat) (h : ∀ d ∈ l, d < 10) :
    digitsToNat ((l.map (fun d => Char.ofNat (48 + d))).reverse) = Nat.ofDigits 10 l := by
  induction l with
  | nil => rfl
  | cons d l ih =>
    have hd : d < 10 := h d (List.mem_cons_self d l)
    simp only [List.map_cons, List.reverse_cons]
    rw [digitsToNat, List.foldl_append]
    simp only [List.foldl_cons, List.foldl_nil]
    rw [← digitsToNat, ih (fun x hx => h x (List.mem_cons_of_mem _ hx))]
    rw [toNat_ofNat_valid _ (Or.inl (by omega))]
    rw [Nat.ofDigits_cons]
    omega

theorem digitsToNat_natLit (n : Nat) : digitsToNat (natLit n) = n := by
  by_cases h : n = 0
  · subst h
    rfl
  · rw [natLit, if_neg h, natDigitsRev_eq_digits n n le_rfl,
      digitsToNat_reverse_map _ (fun d hd => Nat.digits_lt_base (by norm_num) hd),
      Nat.ofDigits_digits]

theorem takeWhile_all_append (p : Char → Bool) (ds rest : List Char)
    (hds : ∀ c ∈ ds, p c = true) (hrest : ∀ c t, rest = c :: t → p c = false) :
    (ds ++ rest).takeWhile p = ds := by
  induction ds with
  | nil =>
    cases rest with
    | nil => rfl
    | cons c t =>
      simp only [List.nil_append, List.takeWhile_cons, hrest c t rfl]
      simp
  | cons c ds ih =>
    simp only [List.cons_append, List.takeWhile_cons, hds c (List.mem_cons_self c ds)]
    simp only [if_true]
    rw [ih (fun x hx => hds x (List.mem_cons_of_mem _ hx))]

theorem dropWhile_all_append (p : Char → Bool) (ds rest : List Char)
    (hds : ∀ c ∈ ds, p c = true) (hrest : ∀ c t, rest = c :: t → p c = false) :
    (ds ++ rest).dropWhile p = rest := by
  induction ds with
  | nil =>
    cases rest with
    | nil => rfl
    | cons c t =>
      simp only [List.nil_append, List.dropWhile_cons, hrest c t rfl]
      simp
  | cons c ds ih =>
    simp only [List.cons_append, List.dropWhile_cons, hds c (List.mem_cons_self c ds)]
    simp only [if_true]
    exact ih (fun x hx => hds x (List.mem_cons_of_mem _ hx))

theorem readDigits_append (ds rest : List Char)
    (hds : ∀ c ∈ ds, c.isDigit = true)
    (hrest : ∀ c t, rest = c :: t → c.isDigit = false) :
    readDigits (ds ++ rest) = (ds, rest) := by
  rw [readDigits, takeWhile_all_append _ _ _ hds hrest,
    dropWhile_all_append _ _ _ hds hrest]

theorem parseIntPart_natLit (n : Nat) (rest : List Char)
    (hrest : ∀ c t, rest = c :: t → c.isDigit = false) :
    parseIntPart (natLit n ++ rest) = some (natLit n, rest) := by
  by_cases h : n = 0
  · subst h
    show parseIntPart ('0' :: rest) = some (['0'], rest)
    rfl
  · obtain ⟨c, t, hct⟩ := List.exists_cons_of_ne_nil (natLit_ne_nil n)
    have hcd : c.isDigit = true := natLit_all_digits n c (by rw [hct]; exact List.mem_cons_self c t)
    have hc0 : (c == '0') = false := natLit_head_ne_zero n h c t hct
    rw [hct, List.cons_append, parseIntPart]
    simp only [hc0, Bool.false_eq_true, if_false, hcd, if_true]
    rw [← List.cons_append, ← hct, readDigits_append _ _ (natLit_all_digits n) hrest]

/-! ## Number round-trip lemmas -/

theorem numStopper_spec (c : Char) (t : List Char) (h : numStopper (c :: t) = true) :
    c.isDigit = false ∧ (c == '.') = false ∧ (c == 'e') = false ∧ (c == 'E') = false := by
  refine ⟨?_, ?_, ?_, ?_⟩ <;> by_contra hne <;> simp only [Bool.not_eq_false] at hne <;>
    simp [numStopper, hne] at h

theorem parseFrac_none (s : List Char) (h : headIs '.' s = false) : parseFrac s = ([], s) := by
  simp [parseFrac, h]

theorem parseExp_none (s : List Char) (h1 : headIs 'e' s = false)
    (h2 : headIs 'E' s = false) : parseExp s = (Option.none, s) := by
  simp [parseExp, h1, h2]

theorem parseExp_stopper (rest : List Char) (hrest : numStopper rest = true) :
    parseExp rest = (Option.none, rest) := by
  cases hr : rest with
  | nil => rfl
  | cons c t =>
    rw [hr] at hrest
    obtain ⟨_, _, h3, h4⟩ := numStopper_spec c t hrest
    exact parseExp_none (c :: t) (by simp only [headIs]; exact h3)
      (by simp only [headIs]; exact h4)

theorem parseFrac_stopper (rest : List Char) (hrest : numStopper rest = true) :
    parseFrac rest = ([], rest) := by
  cases hr : rest with
  | nil => rfl
  | cons c t =>
    rw [hr] at hrest
    exact parseFrac_none (c :: t)
      (by simp only [headIs]; exact (numStopper_spec c t hrest).2.1)

theorem headIs_false_of_digit (d : Char) (c : Char) (t : List Char)
    (hd : c.isDigit = true) (hne : d.isDigit = false) : headIs d (c :: t) = false := by
  simp only [headIs]
  exact beq_false_of_isDigit c d hd hne

theorem headIs_natLit_false (d : Char) (n : Nat) (rest : List Char)
    (hne : d.isDigit = false) : headIs d (natLit n ++ rest) = false := by
  obtain ⟨c, t, hct⟩ := List.exists_cons_of_ne_nil (natLit_ne_nil n)
  have hcd : c.isDigit = true :=
    natLit_all_digits n c (by rw [hct]; exact List.mem_cons_self c t)
  rw [hct, List.cons_append]
  exact headIs_false_of_digit d c _ hcd hne

theorem readDigits_natLit (n : Nat) (rest : List Char)
    (hrest : ∀ c t, rest = c :: t → c.isDigit = false) :
    readDigits (natLit n ++ rest) = (natLit n, rest) :=
  readDigits_append _ _ (natLit_all_digits n) hrest

theorem parseExp_neg_red (X : List Char) :
    parseExp ('e' :: '-' :: X) =
      (if (readDigits X).1 = [] then (Option.none, 'e' :: '-' :: X)
       else (some (-(digitsToNat (readDigits X).1 : Int)), (readDigits X).2)) := rfl

theorem parseExp_plus_red (X : List Char) :
    parseExp ('e' :: '+' :: X) =
      (if (readDigits X).1 = [] then (Option.none, 'e' :: '+' :: X)
       else (some ((digitsToNat (readDigits X).1 : Int)), (readDigits X).2)) := rfl

theorem expDigits_all (n : Nat) : ∀ c ∈ expDigits n, c.isDigit = true := by
  intro c hc
  rw [expDigits] at hc
  by_cases h : n < 10
  · rw [if_pos h] at hc
    rcases List.mem_cons.mp hc with rfl | hc2
    · decide
    · exact natLit_all_digits n c hc2
  · rw [if_neg h] at hc
    exact natLit_all_digits n c hc

theorem expDigits_ne_nil (n : Nat) : expDigits n ≠ [] := by
  rw [expDigits]
  by_cases h : n < 10
  · rw [if_pos h]
    simp
  · rw [if_neg h]
    exact natLit_ne_nil n

theorem digitsToNat_cons_zero (l : List Char) : digitsToNat ('0' :: l) = digitsToNat l := rfl

theorem digitsToNat_replicate_zero (m : Nat) (l : List Char) :
    digitsToNat (List.replicate m '0' ++ l) = digitsToNat l := by
  induction m with
  | zero => rfl
  | succ k ih =>
    rw [List.replicate_succ, List.cons_append, digitsToNat_cons_zero]
    exact ih

theorem digitsToNat_expDigits (n : Nat) : digitsToNat (expDigits n) = n := by
  rw [expDigits]
  by_cases h : n < 10
  · rw [if_pos h, digitsToNat_cons_zero, digitsToNat_natLit]
  · rw [if_neg h, digitsToNat_natLit]

theorem parseExp_expText (x : Int) (rest : List Char) (hrest : numStopper rest = true) :
    parseExp ('e' :: (expText x ++ rest)) = (some x, rest) := by
  have hrest_nd : ∀ c t, rest = c :: t → c.isDigit = false := by
    intro c t hct
    subst hct
    exact (numStopper_spec c t hrest).1
  have hrd : readDigits (expDigits x.natAbs ++ rest) = (expDigits x.natAbs, rest) :=
    readDigits_append _ _ (expDigits_all x.natAbs) hrest_nd
  by_cases hneg : x < 0
  · rw [expText, if_pos hneg, List.cons_append, parseExp_neg_red, hrd]
    simp only [expDigits_ne_nil x.natAbs, if_false, digitsToNat_expDigits]
    simp only [Prod.mk.injEq, Option.some.injEq]
    exact ⟨by omega, trivial⟩
  · rw [expText, if_neg hneg, List.cons_append, parseExp_plus_red, hrd]
    simp only [expDigits_ne_nil x.natAbs, if_false, digitsToNat_expDigits]
    simp only [Prod.mk.injEq, Option.some.injEq]
    exact ⟨by omega, trivial⟩

theorem parseNumberTail_some (neg : Bool) (ids s2 : List Char) :
    parseNumberTail neg (some (ids, s2)) =
      (if (parseFrac s2).1 = [] ∧ (parseExp (parseFrac s2).2).1 = Option.none then
        some (Json.num (if neg then -(digitsToNat ids : Int) else (digitsToNat ids : Int)),
          (parseExp (parseFrac s2).2).2)
      else
        some (Json.flt neg (digitsToNat (ids ++ (parseFrac s2).1))
          ((parseExp (parseFrac s2).2).1.getD 0 - (parseFrac s2).1.length),
          (parseExp (parseFrac s2).2).2)) := rfl

theorem parseNumber_neg_red (X : List Char) :
    parseNumber ('-' :: X) = parseNumberTail true (parseIntPart X) := rfl

theorem parseNumber_pos_red (c : Char) (X : List Char) (hm : (c == '-') = false) :
    parseNumber (c :: X) = parseNumberTail false (parseIntPart (c :: X)) := by
  simp only [parseNumber]
  rw [show headIs '-' (c :: X) = (c == '-') from rfl, hm]
  simp

theorem parseNumber_intLit (n : Int) (rest : List Char) (hrest : numStopper rest = true) :
    parseNumber (intLit n ++ rest) = some (Json.num n, rest) := by
  have hrest_nd : ∀ c t, rest = c :: t → c.isDigit = false := by
    intro c t hct
    subst hct
    exact (numStopper_spec c t hrest).1
  by_cases hm : n < 0
  · have hi : intLit n = '-' :: natLit n.natAbs := by rw [intLit, if_pos hm]
    rw [hi, List.cons_append, parseNumber_neg_red,
      parseIntPart_natLit n.natAbs rest hrest_nd, parseNumberTail_some,
      parseFrac_stopper rest hrest]
    simp [parseExp_stopper rest hrest, digitsToNat_natLit, abs_of_neg hm]
  · have hi : intLit n = natLit n.natAbs := by rw [intLit, if_neg hm]
    obtain ⟨c, t, hct⟩ := List.exists_cons_of_ne_nil (natLit_ne_nil n.natAbs)
    have hcd : c.isDigit = true :=
      natLit_all_digits _ c (by rw [hct]; exact List.mem_cons_self c t)
    rw [hi, hct, List.cons_append,
      parseNumber_pos_red c (t ++ rest) (beq_false_of_isDigit c '-' hcd (by decide)),
      ← List.cons_append, ← hct, parseIntPart_natLit n.natAbs rest hrest_nd,
      parseNumberTail_some, parseFrac_stopper rest hrest]
    simp [parseExp_stopper rest hrest, digitsToNat_natLit, abs_of_nonneg (le_of_not_lt hm)]

theorem parseNumberTail_fixedText (nb : Bool) (mag fr : Nat) (hfr : 1 ≤ fr)
    (rest : List Char) (hrest : numStopper rest = true) :
    parseNumberTail nb (parseIntPart (fixedText (natLit mag) fr ++ rest)) =
      some (Json.flt nb mag (-(fr : Int)), rest) := by
  have hrest_nd : ∀ c t, rest = c :: t → c.isDigit = false := by
    intro c t hct
    subst hct
    exact (numStopper_spec c t hrest).1
  by_cases hlt : fr < (natLit mag).length
  · have hmag : mag ≠ 0 := by
      intro h0
      rw [h0, show natLit 0 = ['0'] from rfl] at hlt
      simp only [List.length_singleton] at hlt
      omega
    obtain ⟨c, t, hct⟩ := List.exists_cons_of_ne_nil (natLit_ne_nil mag)
    have hcd : c.isDigit = true :=
      natLit_all_digits mag c (by rw [hct]; exact List.mem_cons_self c t)
    have hc0 : (c == '0') = false := natLit_head_ne_zero mag hmag c t hct
    have htext : fixedText (natLit mag) fr ++ rest =
        (natLit mag).take ((natLit mag).length - fr) ++
          ('.' :: ((natLit mag).drop ((natLit mag).length - fr) ++ rest)) := by
      rw [fixedText, if_pos hlt, List.append_assoc, List.cons_append]
    obtain ⟨d0, hd0⟩ : ∃ d0, (natLit mag).length - fr = d0 + 1 :=
      ⟨(natLit mag).length - fr - 1, by omega⟩
    have htake : (natLit mag).take ((natLit mag).length - fr) = c :: t.take d0 := by
      rw [hd0, hct]
      rfl
    have hipart : parseIntPart (fixedText (natLit mag) fr ++ rest) =
        some ((natLit mag).take ((natLit mag).length - fr),
          '.' :: ((natLit mag).drop ((natLit mag).length - fr) ++ rest)) := by
      rw [htext, htake, List.cons_append, parseIntPart]
      simp only [hc0, Bool.false_eq_true, if_false, hcd, if_true]
      rw [← List.cons_append, ← htake, readDigits_append _ _
        (fun c2 hc2 => natLit_all_digits mag c2 (List.take_subset _ _ hc2))
        (fun c2 t2 h2 => by injection h2 with ha hb; rw [← ha]; decide)]
    have hdropne : (natLit mag).drop ((natLit mag).length - fr) ≠ [] := by
      intro h0
      have hlen := congrArg List.length h0
      rw [List.length_drop] at hlen
      simp only [List.length_nil] at hlen
      omega
    have hfrac : parseFrac ('.' :: ((natLit mag).drop ((natLit mag).length - fr) ++ rest)) =
        ((natLit mag).drop ((natLit mag).length - fr), rest) := by
      rw [parseFrac]
      simp only [headIs, show ('.' == '.') = true from rfl, if_true, List.tail_cons]
      rw [readDigits_append _ _
        (fun c2 hc2 => natLit_all_digits mag c2 (List.drop_subset _ _ hc2)) hrest_nd]
      simp [hdropne]
    rw [hipart, parseNumberTail_some, hfrac]
    simp [parseExp_stopper rest hrest, List.take_append_drop, digitsToNat_natLit, hdropne,
      List.length_drop]
    omega
  · have htext : fixedText (natLit mag) fr ++ rest =
        '0' :: ('.' :: ((List.replicate (fr - (natLit mag).length) '0' ++ natLit mag) ++ rest)) := by
      rw [fixedText, if_neg hlt]
      rfl
    have hipart : parseIntPart (fixedText (natLit mag) fr ++ rest) =
        some (['0'],
          '.' :: ((List.replicate (fr - (natLit mag).length) '0' ++ natLit mag) ++ rest)) := by
      rw [htext]
      rfl
    have hallzd : ∀ c2 ∈ List.replicate (fr - (natLit mag).length) '0' ++ natLit mag,
        c2.isDigit = true := by
      intro c2 hc2
      rcases List.mem_append.mp hc2 with h | h
      · rw [List.eq_of_mem_replicate h]
        decide
      · exact natLit_all_digits mag c2 h
    have hne : List.replicate (fr - (natLit mag).length) '0' ++ natLit mag ≠ [] := by
      simp [natLit_ne_nil mag]
    have hfrac :
        parseFrac ('.' :: ((List.replicate (fr - (natLit mag).length) '0' ++ natLit mag) ++ rest)) =
          (List.replicate (fr - (natLit mag).length) '0' ++ natLit mag, rest) := by
      rw [parseFrac]
      simp only [headIs, show ('.' == '.') = true from rfl, if_true, List.tail_cons]
      rw [readDigits_append _ _ hallzd hrest_nd]
      simp [hne]
    rw [hipart, parseNumberTail_some, hfrac]
    simp [parseExp_stopper rest hrest, digitsToNat_cons_zero, digitsToNat_replicate_zero,
      digitsToNat_natLit, hne, List.length_append, List.length_replicate]
    omega

theorem parseNumberTail_sciText (nb : Bool) (mag : Nat) (decpt : Int)
    (rest : List Char) (hrest : numStopper rest = true) :
    parseNumberTail nb (parseIntPart (sciText (natLit mag) decpt ++ rest)) =
      some (Json.flt nb mag (decpt - (natLit mag).length), rest) := by
  obtain ⟨c, t, hct⟩ := List.exists_cons_of_ne_nil (natLit_ne_nil mag)
  have hcd : c.isDigit = true :=
    natLit_all_digits mag c (by rw [hct]; exact List.mem_cons_self c t)
  have hexp : parseExp ('e' :: (expText (decpt - 1) ++ rest)) = (some (decpt - 1), rest) :=
    parseExp_expText (decpt - 1) rest hrest
  cases t with
  | nil =>
    have hsci : sciText (natLit mag) decpt ++ rest =
        c :: ('e' :: (expText (decpt - 1) ++ rest)) := by
      rw [sciText, hct]
      rfl
    have hipart : parseIntPart (sciText (natLit mag) decpt ++ rest) =
        some ([c], 'e' :: (expText (decpt - 1) ++ rest)) := by
      rw [hsci]
      by_cases hc0 : c = '0'
      · subst hc0
        rfl
      · have hc0f : (c == '0') = false := beq_eq_false_iff_ne.mpr hc0
        rw [parseIntPart]
        simp only [hc0f, Bool.false_eq_true, if_false, hcd, if_true]
        rw [show (c :: ('e' :: (expText (decpt - 1) ++ rest))) =
          [c] ++ ('e' :: (expText (decpt - 1) ++ rest)) from rfl]
        rw [readDigits_append _ _
          (by intro c2 hc2; rcases List.mem_singleton.mp hc2 with rfl; exact hcd)
          (fun c2 t2 h2 => by injection h2 with ha hb; rw [← ha]; decide)]
    have hfrac : parseFrac ('e' :: (expText (decpt - 1) ++ rest)) =
        ([], 'e' :: (expText (decpt - 1) ++ rest)) :=
      parseFrac_none ('e' :: (expText (decpt - 1) ++ rest)) rfl
    have hdc : digitsToNat [c] = mag := by
      rw [← hct, digitsToNat_natLit]
    have hlen1 : (natLit mag).length = 1 := by
      rw [hct]
      rfl
    rw [hipart, parseNumberTail_some, hfrac]
    simp [hexp, hdc, hlen1]
  | cons t1 t2 =>
    have hmag0 : mag ≠ 0 := by
      intro h0
      rw [h0, show natLit 0 = ['0'] from rfl] at hct
      injection hct with ha hb
      exact (List.cons_ne_nil t1 t2) hb.symm
    have hc0 : (c == '0') = false := natLit_head_ne_zero mag hmag0 c _ hct
    have hsci : sciText (natLit mag) decpt ++ rest =
        c :: ('.' :: ((t1 :: t2) ++ ('e' :: (expText (decpt - 1) ++ rest)))) := by
      rw [sciText, hct]
      have hlen : ¬((c :: t1 :: t2).length ≤ 1) := by simp
      rw [if_neg hlen]
      simp [List.append_assoc]
    have hipart : parseIntPart (sciText (natLit mag) decpt ++ rest) =
        some ([c], '.' :: ((t1 :: t2) ++ ('e' :: (expText (decpt - 1) ++ rest)))) := by
      rw [hsci, parseIntPart]
      simp only [hc0, Bool.false_eq_true, if_false, hcd, if_true]
      rw [show (c :: ('.' :: ((t1 :: t2) ++ ('e' :: (expText (decpt - 1) ++ rest))))) =
        [c] ++ ('.' :: ((t1 :: t2) ++ ('e' :: (expText (decpt - 1) ++ rest)))) from rfl]
      rw [readDigits_append _ _
        (by intro c2 hc2; rcases List.mem_singleton.mp hc2 with rfl; exact hcd)
        (fun c2 t3 h2 => by injection h2 with ha hb; rw [← ha]; decide)]
    have htdig : ∀ c2 ∈ t1 :: t2, c2.isDigit = true := by
      intro c2 hc2
      exact natLit_all_digits mag c2 (by rw [hct]; exact List.mem_cons_of_mem c hc2)
    have hfrac : parseFrac ('.' :: ((t1 :: t2) ++ ('e' :: (expText (decpt - 1) ++ rest)))) =
        (t1 :: t2, 'e' :: (expText (decpt - 1) ++ rest)) := by
      rw [parseFrac]
      simp only [headIs, show ('.' == '.') = true from rfl, if_true, List.tail_cons]
      rw [readDigits_append _ _ htdig
        (fun c2 t3 h2 => by injection h2 with ha hb; rw [← ha]; decide)]
      simp
    have hdc : digitsToNat (c :: t1 :: t2) = mag := by
      rw [← hct, digitsToNat_natLit]
    have hlen : (natLit mag).length = (t1 :: t2).length + 1 := by
      rw [hct]
      rfl
    rw [hipart, parseNumberTail_some, hfrac]
    simp [hexp, hdc, hlen, List.length_cons]
    omega

theorem fltLit_head (mag : Nat) (e : Int) :
    ∃ c t, fltLit mag e = c :: t ∧ c.isDigit = true := by
  obtain ⟨c, t, hct⟩ := List.exists_cons_of_ne_nil (natLit_ne_nil mag)
  have hcd : c.isDigit = true :=
    natLit_all_digits mag c (by rw [hct]; exact List.mem_cons_self c t)
  rw [fltLit]
  by_cases hb : e < 0 ∧ -4 < ((natLit mag).length : Int) + e ∧ ((natLit mag).length : Int) + e ≤ 16
  · rw [if_pos hb, fixedText]
    by_cases hlt : e.natAbs < (natLit mag).length
    · rw [if_pos hlt]
      obtain ⟨d0, hd0⟩ : ∃ d0, (natLit mag).length - e.natAbs = d0 + 1 :=
        ⟨(natLit mag).length - e.natAbs - 1, by omega⟩
      refine ⟨c, t.take d0 ++ '.' :: (natLit mag).drop ((natLit mag).length - e.natAbs),
        ?_, hcd⟩
      rw [hd0, hct]
      rfl
    · rw [if_neg hlt]
      exact ⟨'0', '.' :: (List.replicate (e.natAbs - (natLit mag).length) '0' ++ natLit mag),
        rfl, by decide⟩
  · rw [if_neg hb, sciText, hct]
    cases t with
    | nil => exact ⟨c, _, rfl, hcd⟩
    | cons t1 t2 =>
      have hlen : ¬((c :: t1 :: t2).length ≤ 1) := by simp
      rw [if_neg hlen]
      exact ⟨c, _, rfl, hcd⟩

theorem parseNumber_fltLit (nb : Bool) (mag : Nat) (e : Int) (rest : List Char)
    (hrest : numStopper rest = true) :
    parseNumber ((if nb then ['-'] else []) ++ (fltLit mag e ++ rest)) =
      some (Json.flt nb mag e, rest) := by
  have hcore : parseNumberTail nb (parseIntPart (fltLit mag e ++ rest)) =
      some (Json.flt nb mag e, rest) := by
    rw [fltLit]
    by_cases hb : e < 0 ∧ -4 < ((natLit mag).length : Int) + e ∧
        ((natLit mag).length : Int) + e ≤ 16
    · rw [if_pos hb]
      rw [parseNumberTail_fixedText nb mag e.natAbs (by omega) rest hrest]
      have he : -(e.natAbs : Int) = e := by omega
      rw [he]
    · rw [if_neg hb]
      rw [parseNumberTail_sciText nb mag (((natLit mag).length : Int) + e) rest hrest]
      have he : ((natLit mag).length : Int) + e - (natLit mag).length = e := by omega
      rw [he]
  obtain ⟨c, t, hct, hcd⟩ := fltLit_head mag e
  cases nb with
  | true =>
    rw [show ((if true then ['-'] else []) ++ (fltLit mag e ++ rest)) =
      '-' :: (fltLit mag e ++ rest) from rfl]
    rw [parseNumber_neg_red]
    exact hcore
  | false =>
    rw [show ((if false then ['-'] else ([] : List Char)) ++ (fltLit mag e ++ rest)) =
      fltLit mag e ++ rest from rfl]
    rw [hct, List.cons_append,
      parseNumber_pos_red c (t ++ rest) (beq_false_of_isDigit c '-' hcd (by decide)),
      ← List.cons_append, ← hct]
    exact hcore

/-! ## String-escape round-trip lemmas -/

theorem char_valid_toNat (c : Char) :
    c.toNat < 0xd800 ∨ (0xdfff < c.toNat ∧ c.toNat < 0x110000) := c.valid

theorem hexVal_hexDigitChar : ∀ n < 16, hexVal (hexDigitChar n) = some n := by decide

theorem hex4Val_hex4 (v : Nat) (h : v < 0x10000) :
    hex4Val (hexDigitChar (v / 4096 % 16)) (hexDigitChar (v / 256 % 16))
      (hexDigitChar (v / 16 % 16)) (hexDigitChar (v % 16)) = some v := by
  rw [hex4Val, hexVal_hexDigitChar _ (by omega), hexVal_hexDigitChar _ (by omega),
    hexVal_hexDigitChar _ (by omega), hexVal_hexDigitChar _ (by omega)]
  have harith : 4096 * (v / 4096 % 16) + 256 * (v / 256 % 16) + 16 * (v / 16 % 16) + v % 16 = v := by
    omega
  exact congrArg some harith

theorem parseStringBody_backslash (r : List Char) :
    parseStringBody ('\\' :: r) = parseEscape r := by
  simp only [parseStringBody, show ('\\' == '"') = false from rfl,
    show ('\\' == '\\') = true from rfl, Bool.false_eq_true, if_false, if_true]

theorem parseStringBody_u (d1 d2 d3 d4 : Char) (X : List Char) (v : Nat)
    (hv : hex4Val d1 d2 d3 d4 = some v) (hlo : ¬(0xd800 ≤ v ∧ v ≤ 0xdbff))
    (hhi : ¬(0xdc00 ≤ v ∧ v ≤ 0xdfff)) :
    parseStringBody ('\\' :: 'u' :: d1 :: d2 :: d3 :: d4 :: X) =
      pushChar (Char.ofNat v) (parseStringBody X) := by
  rw [parseStringBody_backslash]
  simp only [parseEscape, show ('u' == 'u') = true from rfl, if_true]
  simp only [parseUEscape, hv, hlo, hhi, if_false]

theorem parseStringBody_u_pair (d1 d2 d3 d4 l1 l2 l3 l4 : Char) (X : List Char) (v w : Nat)
    (hv : hex4Val d1 d2 d3 d4 = some v) (hw : hex4Val l1 l2 l3 l4 = some w)
    (hvr : 0xd800 ≤ v ∧ v ≤ 0xdbff) (hwr : 0xdc00 ≤ w ∧ w ≤ 0xdfff) :
    parseStringBody
        ('\\' :: 'u' :: d1 :: d2 :: d3 :: d4 :: '\\' :: 'u' :: l1 :: l2 :: l3 :: l4 :: X) =
      pushChar (Char.ofNat (0x10000 + (v - 0xd800) * 0x400 + (w - 0xdc00)))
        (parseStringBody X) := by
  rw [parseStringBody_backslash]
  simp only [parseEscape, show ('u' == 'u') = true from rfl, if_true]
  simp only [parseUEscape, hv, hvr, and_self, if_true]
  simp only [parseLowSur, show ('\\' == '\\') = true from rfl,
    show ('u' == 'u') = true from rfl, Bool.and_self, if_true, hw, hwr, and_self]

theorem parseStringBody_esc_short (ec e : Char) (he : escTable e = some ec)
    (hu : (e == 'u') = false) (X : List Char) :
    parseStringBody ('\\' :: e :: X) = pushChar ec (parseStringBody X) := by
  rw [parseStringBody_backslash]
  simp only [parseEscape, hu, Bool.false_eq_true, if_false, he]

theorem parseStringBody_escape : ∀ (s rest : List Char),
    parseStringBody (escapeString s ++ '"' :: rest) = some (s, rest) := by
  intro s
  induction s with
  | nil =>
    intro rest
    show parseStringBody ('"' :: rest) = some ([], rest)
    simp only [parseStringBody, show ('"' == '"') = true from rfl, if_true]
  | cons c cs ih =>
    intro rest
    have hesc : escapeString (c :: cs) = escapeChar c ++ escapeString cs := rfl
    rw [hesc, List.append_assoc]
    by_cases h1 : c = '"'
    · subst h1
      rw [show escapeChar '"' = ['\\', '"'] from rfl]
      simp only [List.cons_append, List.nil_append]
      rw [parseStringBody_esc_short '"' '"' rfl rfl, ih rest]
      rfl
    · by_cases h2 : c = '\\'
      · subst h2
        rw [show escapeChar '\\' = ['\\', '\\'] from rfl]
        simp only [List.cons_append, List.nil_append]
        rw [parseStringBody_esc_short '\\' '\\' rfl rfl, ih rest]
        rfl
      · by_cases h3 : c = '\n'
        · subst h3
          rw [show escapeChar '\n' = ['\\', 'n'] from rfl]
          simp only [List.cons_append, List.nil_append]
          rw [parseStringBody_esc_short '\n' 'n' rfl rfl, ih rest]
          rfl
        · by_cases h4 : c = '\t'
          · subst h4
            rw [show escapeChar '\t' = ['\\', 't'] from rfl]
            simp only [List.cons_append, List.nil_append]
            rw [parseStringBody_esc_short '\t' 't' rfl rfl, ih rest]
            rfl
          · by_cases h5 : c = '\r'
            · subst h5
              rw [show escapeChar '\r' = ['\\', 'r'] from rfl]
              simp only [List.cons_append, List.nil_append]
              rw [parseStringBody_esc_short '\r' 'r' rfl rfl, ih rest]
              rfl
            · by_cases h6 : c = '\x08'
              · subst h6
                rw [show escapeChar '\x08' = ['\\', 'b'] from rfl]
                simp only [List.cons_append, List.nil_append]
                rw [parseStringBody_esc_short '\x08' 'b' rfl rfl, ih rest]
                rfl
              · by_cases h7 : c = '\x0c'
                · subst h7
                  rw [show escapeChar '\x0c' = ['\\', 'f'] from rfl]
                  simp only [List.cons_append, List.nil_append]
                  rw [parseStringBody_esc_short '\x0c' 'f' rfl rfl, ih rest]
                  rfl
                · have hb1 : (c == '"') = false := beq_eq_false_iff_ne.mpr h1
                  have hb2 : (c == '\\') = false := beq_eq_false_iff_ne.mpr h2
                  have hb3 : (c == '\n') = false := beq_eq_false_iff_ne.mpr h3
                  have hb4 : (c == '\t') = false := beq_eq_false_iff_ne.mpr h4
                  have hb5 : (c == '\r') = false := beq_eq_false_iff_ne.mpr h5
                  have hb6 : (c == '\x08') = false := beq_eq_false_iff_ne.mpr h6
                  have hb7 : (c == '\x0c') = false := beq_eq_false_iff_ne.mpr h7
                  by_cases h8 : c.toNat < 0x20
                  · have hesc2 : escapeChar c = '\\' :: 'u' :: hex4 c.toNat := by
                      simp only [escapeChar, hb1, hb2, hb3, hb4, hb5, hb6, hb7,
                        Bool.false_eq_true, if_false]
                      rw [if_pos h8]
                    rw [hesc2, hex4]
                    simp only [List.cons_append, List.nil_append]
                    rw [parseStringBody_u _ _ _ _ _ c.toNat
                      (hex4Val_hex4 c.toNat (by omega)) (by omega) (by omega),
                      Char.ofNat_toNat, ih rest]
                    rfl
                  · by_cases h9 : c.toNat < 0x7f
                    · have hesc2 : escapeChar c = [c] := by
                        simp only [escapeChar, hb1, hb2, hb3, hb4, hb5, hb6, hb7,
                          Bool.false_eq_true, if_false]
                        rw [if_neg h8, if_pos h9]
                      rw [hesc2, List.singleton_append]
                      simp only [parseStringBody, hb1, hb2, Bool.false_eq_true, if_false]
                      rw [if_neg h8, ih rest]
                      rfl
                    · by_cases h10 : c.toNat < 0x10000
                      · have hnosur := char_valid_toNat c
                        have hesc2 : escapeChar c = '\\' :: 'u' :: hex4 c.toNat := by
                          simp only [escapeChar, hb1, hb2, hb3, hb4, hb5, hb6, hb7,
                            Bool.false_eq_true, if_false]
                          rw [if_neg h8, if_neg h9, if_pos h10]
                        rw [hesc2, hex4]
                        simp only [List.cons_append, List.nil_append]
                        rw [parseStringBody_u _ _ _ _ _ c.toNat
                          (hex4Val_hex4 c.toNat (by omega)) (by omega) (by omega),
                          Char.ofNat_toNat, ih rest]
                        rfl
                      · have hval := char_valid_toNat c
                        have hesc2 : escapeChar c =
                            ('\\' :: 'u' :: hex4 (0xd800 + (c.toNat - 0x10000) / 0x400)) ++
                            ('\\' :: 'u' :: hex4 (0xdc00 + (c.toNat - 0x10000) % 0x400)) := by
                          simp only [escapeChar, hb1, hb2, hb3, hb4, hb5, hb6, hb7,
                            Bool.false_eq_true, if_false]
                          rw [if_neg h8, if_neg h9, if_neg h10]
                        rw [hesc2, hex4, hex4]
                        simp only [List.cons_append, List.nil_append]
                        rw [parseStringBody_u_pair _ _ _ _ _ _ _ _ _
                          (0xd800 + (c.toNat - 0x10000) / 0x400)
                          (0xdc00 + (c.toNat - 0x10000) % 0x400)
                          (hex4Val_hex4 _ (by omega)) (hex4Val_hex4 _ (by omega))
                          (by omega) (by omega)]
                        have harg : 0x10000 +
                            (0xd800 + (c.toNat - 0x10000) / 0x400 - 0xd800) * 0x400 +
                            (0xdc00 + (c.toNat - 0x10000) % 0x400 - 0xdc00) = c.toNat := by
                          omega
                        rw [harg, Char.ofNat_toNat, ih rest]
                        rfl

/-! ## Dispatch and whitespace lemmas for the value parser -/

theorem dropLit_self : ∀ (p s : List Char), dropLit p (p ++ s) = some s := by
  intro p
  induction p with
  | nil => intro s; simp [dropLit]
  | cons c p ih => intro s; simp [dropLit, ih]

theorem skipWs_cons_false (c : Char) (t : List Char) (h : jsonWs c = false) :
    skipWs (c :: t) = c :: t := by
  simp [skipWs, List.dropWhile_cons, h]

theorem skipWs_cons_true (c : Char) (t : List Char) (h : jsonWs c = true) :
    skipWs (c :: t) = skipWs t := by
  simp [skipWs, List.dropWhile_cons, h]

theorem jsonWs_false_of_digit (c : Char) (h : c.isDigit = true) : jsonWs c = false := by
  simp only [jsonWs, beq_false_of_isDigit c ' ' h (by decide),
    beq_false_of_isDigit c '\t' h (by decide), beq_false_of_isDigit c '\n' h (by decide),
    beq_false_of_isDigit c '\r' h (by decide), Bool.or_self, Bool.or_false]

theorem parseValue_zero (s : List Char) : parseValue 0 s = Option.none := by
  simp only [parseValue]

theorem parseValue_ws (fv : Nat) (c : Char) (t : List Char) (h : jsonWs c = true) :
    parseValue fv (c :: t) = parseValue fv t := by
  cases fv with
  | zero => simp only [parseValue]
  | succ f => simp only [parseValue, skipWs_cons_true c t h]

theorem parseValue_pre (pre : List Char) (hpre : pre = [] ∨ pre = [' ']) (fv : Nat)
    (x : List Char) : parseValue fv (pre ++ x) = parseValue fv x := by
  rcases hpre with rfl | rfl
  · rw [List.nil_append]
  · rw [List.singleton_append]
    exact parseValue_ws fv ' ' x rfl

theorem parseValue_n (f : Nat) (X : List Char) :
    parseValue (f + 1) ('n' :: X) = jpair Json.null (dropLit (strLit "ull") X) := by
  simp only [parseValue, skipWs_cons_false 'n' X (by decide),
    show ('n' == 'n') = true from rfl, if_true]

theorem parseValue_t (f : Nat) (X : List Char) :
    parseValue (f + 1) ('t' :: X) = jpair (Json.bool true) (dropLit (strLit "rue") X) := by
  simp only [parseValue, skipWs_cons_false 't' X (by decide),
    show ('t' == 'n') = false from rfl, show ('t' == 't') = true from rfl,
    Bool.false_eq_true, if_false, if_true]

theorem parseValue_f (f : Nat) (X : List Char) :
    parseValue (f + 1) ('f' :: X) = jpair (Json.bool false) (dropLit (strLit "alse") X) := by
  simp only [parseValue, skipWs_cons_false 'f' X (by decide),
    show ('f' == 'n') = false from rfl, show ('f' == 't') = false from rfl,
    show ('f' == 'f') = true from rfl, Bool.false_eq_true, if_false, if_true]

theorem parseValue_nan (f : Nat) (X : List Char) :
    parseValue (f + 1) ('N' :: X) = jpair Json.nan (dropLit (strLit "aN") X) := by
  simp only [parseValue, skipWs_cons_false 'N' X (by decide),
    show ('N' == 'n') = false from rfl, show ('N' == 't') = false from rfl,
    show ('N' == 'f') = false from rfl, show ('N' == 'N') = true from rfl,
    Bool.false_eq_true, if_false, if_true]

theorem parseValue_infchar (f : Nat) (X : List Char) :
    parseValue (f + 1) ('I' :: X) = jpair (Json.inf false) (dropLit (strLit "nfinity") X) := by
  simp only [parseValue, skipWs_cons_false 'I' X (by decide),
    show ('I' == 'n') = false from rfl, show ('I' == 't') = false from rfl,
    show ('I' == 'f') = false from rfl, show ('I' == 'N') = false from rfl,
    show ('I' == 'I') = true from rfl, Bool.false_eq_true, if_false, if_true]

theorem parseValue_quote (f : Nat) (X : List Char) :
    parseValue (f + 1) ('"' :: X) =
      (match parseStringBody X with
       | some (cs, r') => some (Json.str cs, r')
       | Option.none => Option.none) := by
  simp only [parseValue, skipWs_cons_false '"' X (by decide),
    show ('"' == 'n') = false from rfl, show ('"' == 't') = false from rfl,
    show ('"' == 'f') = false from rfl, show ('"' == 'N') = false from rfl,
    show ('"' == 'I') = false from rfl, show ('"' == '"') = true from rfl,
    Bool.false_eq_true, if_false, if_true]

theorem parseValue_lbracket (f : Nat) (X : List Char) :
    parseValue (f + 1) ('[' :: X) =
      (if headIs ']' (skipWs X) then some (Json.arr [], (skipWs X).tail)
       else
         match parseElemsF (parseValue f) f (skipWs X) with
         | some (es, r') => some (Json.arr es, r')
         | Option.none => Option.none) := by
  simp only [parseValue, skipWs_cons_false '[' X (by decide),
    show ('[' == 'n') = false from rfl, show ('[' == 't') = false from rfl,
    show ('[' == 'f') = false from rfl, show ('[' == 'N') = false from rfl,
    show ('[' == 'I') = false from rfl, show ('[' == '"') = false from rfl,
    show ('[' == '[') = true from rfl, Bool.false_eq_true, if_false, if_true]

theorem parseValue_lbrace (f : Nat) (X : List Char) :
    parseValue (f + 1) ('\x7b' :: X) =
      (if headIs '\x7d' (skipWs X) then some (Json.obj [], (skipWs X).tail)
       else
         match parseMembersF (parseValue f) f (skipWs X) with
         | some (ms, r') => some (Json.obj ms, r')
         | Option.none => Option.none) := by
  simp only [parseValue, skipWs_cons_false '\x7b' X (by decide),
    show ('\x7b' == 'n') = false from rfl, show ('\x7b' == 't') = false from rfl,
    show ('\x7b' == 'f') = false from rfl, show ('\x7b' == 'N') = false from rfl,
    show ('\x7b' == 'I') = false from rfl, show ('\x7b' == '"') = false from rfl,
    show ('\x7b' == '[') = false from rfl, show ('\x7b' == '\x7b') = true from rfl,
    Bool.false_eq_true, if_false, if_true]

theorem parseValue_dash (f : Nat) (X : List Char) :
    parseValue (f + 1) ('-' :: X) =
      (match dropLit (strLit "Infinity") X with
       | some r' => some (Json.inf true, r')
       | Option.none => parseNumber ('-' :: X)) := by
  simp only [parseValue, skipWs_cons_false '-' X (by decide),
    show ('-' == 'n') = false from rfl, show ('-' == 't') = false from rfl,
    show ('-' == 'f') = false from rfl, show ('-' == 'N') = false from rfl,
    show ('-' == 'I') = false from rfl, show ('-' == '"') = false from rfl,
    show ('-' == '[') = false from rfl, show ('-' == '\x7b') = false from rfl,
    show ('-' == '-') = true from rfl, Bool.false_eq_true, if_false, if_true]

theorem parseValue_digit (c0 : Char) (hd : c0.isDigit = true) (f : Nat) (X : List Char) :
    parseValue (f + 1) (c0 :: X) = parseNumber (c0 :: X) := by
  simp only [parseValue, skipWs_cons_false c0 X (jsonWs_false_of_digit c0 hd),
    beq_false_of_isDigit c0 'n' hd (by decide), beq_false_of_isDigit c0 't' hd (by decide),
    beq_false_of_isDigit c0 'f' hd (by decide), beq_false_of_isDigit c0 'N' hd (by decide),
    beq_false_of_isDigit c0 'I' hd (by decide), beq_false_of_isDigit c0 '"' hd (by decide),
    beq_false_of_isDigit c0 '[' hd (by decide), beq_false_of_isDigit c0 '\x7b' hd (by decide),
    beq_false_of_isDigit c0 '-' hd (by decide), Bool.false_eq_true, if_false]

/-! ## Shape of serialized output -/

theorem dumpJson_head (j : Json) :
    ∃ c t, dumpJson j = c :: t ∧ jsonWs c = false ∧ (c == ']') = false ∧
      (c == '\x7d') = false := by
  cases j with
  | null => exact ⟨'n', strLit "ull", by decide, rfl, rfl, rfl⟩
  | bool b =>
    cases b with
    | true => exact ⟨'t', strLit "rue", by decide, rfl, rfl, rfl⟩
    | false => exact ⟨'f', strLit "alse", by decide, rfl, rfl, rfl⟩
  | nan => exact ⟨'N', strLit "aN", by decide, rfl, rfl, rfl⟩
  | inf neg =>
    cases neg with
    | true => exact ⟨'-', strLit "Infinity", by decide, rfl, rfl, rfl⟩
    | false => exact ⟨'I', strLit "nfinity", by decide, rfl, rfl, rfl⟩
  | num n =>
    by_cases hm : n < 0
    · refine ⟨'-', natLit n.natAbs, ?_, rfl, rfl, rfl⟩
      simp [dumpJson, intLit, hm]
    · obtain ⟨c, t, hct⟩ := List.exists_cons_of_ne_nil (natLit_ne_nil n.natAbs)
      have hcd : c.isDigit = true :=
        natLit_all_digits _ c (by rw [hct]; exact List.mem_cons_self c t)
      refine ⟨c, t, ?_,
        jsonWs_false_of_digit c hcd, beq_false_of_isDigit c ']' hcd (by decide),
        beq_false_of_isDigit c '\x7d' hcd (by decide)⟩
      simp [dumpJson, intLit, hm, hct]
  | flt nb mag e =>
    obtain ⟨c, t, hct, hcd⟩ := fltLit_head mag e
    cases nb with
    | true => exact ⟨'-', fltLit mag e, by simp [dumpJson], rfl, rfl, rfl⟩
    | false =>
      refine ⟨c, t, ?_,
        jsonWs_false_of_digit c hcd, beq_false_of_isDigit c ']' hcd (by decide),
        beq_false_of_isDigit c '\x7d' hcd (by decide)⟩
      simp [dumpJson, hct]
  | str s => exact ⟨'"', escapeString s ++ ['"'], by simp [dumpJson], rfl, rfl, rfl⟩
  | arr es => exact ⟨'[', dumpElems es ++ [']'], by simp [dumpJson], rfl, rfl, rfl⟩
  | obj ms => exact ⟨'\x7b', dumpMembers ms ++ ['\x7d'], by simp [dumpJson], rfl, rfl, rfl⟩

theorem dumpElems_cons_head (j : Json) (js : List Json) :
    ∃ c t, dumpElems (j :: js) = c :: t ∧ jsonWs c = false ∧ (c == ']') = false ∧
      (c == '\x7d') = false := by
  obtain ⟨c, t, hc, hw, h1, h2⟩ := dumpJson_head j
  cases js with
  | nil => exact ⟨c, t, by simp [dumpElems, hc], hw, h1, h2⟩
  | cons j2 js2 =>
    exact ⟨c, t ++ ',' :: ' ' :: dumpElems (j2 :: js2), by simp [dumpElems, hc], hw, h1, h2⟩

theorem fuelJson_pos (j : Json) : 1 ≤ fuelJson j := by
  cases j <;> simp [fuelJson]

theorem fuelList_length : ∀ js : List Json, js.length ≤ fuelList js := by
  intro js
  induction js with
  | nil => simp [fuelList]
  | cons j js ih =>
    simp only [fuelList, List.length_cons]
    omega

theorem fuelList_mem : ∀ (js : List Json) (j : Json), j ∈ js → fuelJson j ≤ fuelList js := by
  intro js
  induction js with
  | nil => intro j hj; cases hj
  | cons x xs ih =>
    intro j hj
    rcases List.mem_cons.mp hj with rfl | hj2
    · simp only [fuelList]
      omega
    · have := ih j hj2
      simp only [fuelList]
      omega

theorem fuelMembers_length : ∀ ms : List (List Char × Json), ms.length ≤ fuelMembers ms := by
  intro ms
  induction ms with
  | nil => simp [fuelMembers]
  | cons m ms ih =>
    obtain ⟨k, v⟩ := m
    simp only [fuelMembers, List.length_cons]
    omega

theorem fuelMembers_mem : ∀ (ms : List (List Char × Json)) (p : List Char × Json),
    p ∈ ms → fuelJson p.2 ≤ fuelMembers ms := by
  intro ms
  induction ms with
  | nil => intro p hp; cases hp
  | cons x xs ih =>
    intro p hp
    obtain ⟨k, v⟩ := x
    rcases List.mem_cons.mp hp with rfl | hp2
    · simp only [fuelMembers]
      omega
    · have := ih p hp2
      simp only [fuelMembers]
      omega

theorem dumpMembers_cons_head (k : List Char) (v : Json) (ms2 : List (List Char × Json)) :
    ∃ t2, dumpMembers ((k, v) :: ms2) = '"' :: t2 := by
  cases ms2 with
  | nil =>
    refine ⟨escapeString k ++ '"' :: ':' :: ' ' :: dumpJson v, ?_⟩
    simp [dumpMembers]
  | cons m2 ms3 =>
    refine ⟨escapeString k ++ '"' :: ':' :: ' ' :: dumpJson v ++ ',' :: ' ' :: dumpMembers (m2 :: ms3), ?_⟩
    simp [dumpMembers, List.cons_append, List.append_assoc]

/-! ## The parse/serialize round trip -/

mutual
theorem parseValue_dump : ∀ (j : Json) (fuel : Nat) (rest : List Char),
    numStopper rest = true → fuelJson j ≤ fuel →
    parseValue fuel (dumpJson j ++ rest) = some (j, rest)
  | Json.null, fuel, rest, hrest, hfuel => by
    obtain ⟨f, rfl⟩ : ∃ f, fuel = f + 1 :=
      ⟨fuel - 1, by have hp := fuelJson_pos Json.null; omega⟩
    rw [show dumpJson Json.null ++ rest = 'n' :: (strLit "ull" ++ rest) from rfl,
      parseValue_n, dropLit_self]
    rfl
  | Json.bool true, fuel, rest, hrest, hfuel => by
    obtain ⟨f, rfl⟩ : ∃ f, fuel = f + 1 :=
      ⟨fuel - 1, by have hp := fuelJson_pos (Json.bool true); omega⟩
    rw [show dumpJson (Json.bool true) ++ rest = 't' :: (strLit "rue" ++ rest) from rfl,
      parseValue_t, dropLit_self]
    rfl
  | Json.bool false, fuel, rest, hrest, hfuel => by
    obtain ⟨f, rfl⟩ : ∃ f, fuel = f + 1 :=
      ⟨fuel - 1, by have hp := fuelJson_pos (Json.bool false); omega⟩
    rw [show dumpJson (Json.bool false) ++ rest = 'f' :: (strLit "alse" ++ rest) from rfl,
      parseValue_f, dropLit_self]
    rfl
  | Json.nan, fuel, rest, hrest, hfuel => by
    obtain ⟨f, rfl⟩ : ∃ f, fuel = f + 1 :=
      ⟨fuel - 1, by have hp := fuelJson_pos Json.nan; omega⟩
    rw [show dumpJson Json.nan ++ rest = 'N' :: (strLit "aN" ++ rest) from rfl,
      parseValue_nan, dropLit_self]
    rfl
  | Json.inf false, fuel, rest, hrest, hfuel => by
    obtain ⟨f, rfl⟩ : ∃ f, fuel = f + 1 :=
      ⟨fuel - 1, by have hp := fuelJson_pos (Json.inf false); omega⟩
    rw [show dumpJson (Json.inf false) ++ rest = 'I' :: (strLit "nfinity" ++ rest) from rfl,
      parseValue_infchar, dropLit_self]
    rfl
  | Json.inf true, fuel, rest, hrest, hfuel => by
    obtain ⟨f, rfl⟩ : ∃ f, fuel = f + 1 :=
      ⟨fuel - 1, by have hp := fuelJson_pos (Json.inf true); omega⟩
    rw [show dumpJson (Json.inf true) ++ rest = '-' :: (strLit "Infinity" ++ rest) from rfl,
      parseValue_dash, dropLit_self]
  | Json.num n, fuel, rest, hrest, hfuel => by
    obtain ⟨f, rfl⟩ : ∃ f, fuel = f + 1 :=
      ⟨fuel - 1, by have hp := fuelJson_pos (Json.num n); omega⟩
    by_cases hm : n < 0
    · have hsplit : dumpJson (Json.num n) ++ rest = '-' :: (natLit n.natAbs ++ rest) := by
        simp [dumpJson, intLit, hm]
      rw [hsplit, parseValue_dash]
      obtain ⟨c, t, hct⟩ := List.exists_cons_of_ne_nil (natLit_ne_nil n.natAbs)
      have hcd : c.isDigit = true :=
        natLit_all_digits _ c (by rw [hct]; exact List.mem_cons_self c t)
      have hdrop : dropLit (strLit "Infinity") (natLit n.natAbs ++ rest) = Option.none := by
        rw [hct, List.cons_append, show strLit "Infinity" = 'I' :: strLit "nfinity" from rfl]
        simp only [dropLit, beq_false_of_isDigit c 'I' hcd (by decide),
          Bool.false_eq_true, if_false]
      simp only [hdrop]
      rw [show ('-' :: (natLit n.natAbs ++ rest)) = intLit n ++ rest from by
        simp [intLit, hm]]
      exact parseNumber_intLit n rest hrest
    · obtain ⟨c, t, hct⟩ := List.exists_cons_of_ne_nil (natLit_ne_nil n.natAbs)
      have hcd : c.isDigit = true :=
        natLit_all_digits _ c (by rw [hct]; exact List.mem_cons_self c t)
      have hsplit : dumpJson (Json.num n) ++ rest = c :: (t ++ rest) := by
        simp [dumpJson, intLit, hm, hct]
      rw [hsplit, parseValue_digit c hcd]
      rw [show (c :: (t ++ rest)) = intLit n ++ rest from by simp [intLit, hm, hct]]
      exact parseNumber_intLit n rest hrest
  | Json.flt nb mag e, fuel, rest, hrest, hfuel => by
    obtain ⟨f, rfl⟩ : ∃ f, fuel = f + 1 :=
      ⟨fuel - 1, by have hp := fuelJson_pos (Json.flt nb mag e); omega⟩
    obtain ⟨c, t, hct, hcd⟩ := fltLit_head mag e
    cases nb with
    | true =>
      have hsplit : dumpJson (Json.flt true mag e) ++ rest =
          '-' :: (fltLit mag e ++ rest) := by
        simp [dumpJson]
      rw [hsplit, parseValue_dash]
      have hdrop : dropLit (strLit "Infinity") (fltLit mag e ++ rest) = Option.none := by
        rw [hct, List.cons_append, show strLit "Infinity" = 'I' :: strLit "nfinity" from rfl]
        simp only [dropLit, beq_false_of_isDigit c 'I' hcd (by decide),
          Bool.false_eq_true, if_false]
      simp only [hdrop]
      rw [show ('-' :: (fltLit mag e ++ rest)) =
        (if true then ['-'] else []) ++ (fltLit mag e ++ rest) from rfl]
      exact parseNumber_fltLit true mag e rest hrest
    | false =>
      have hsplit : dumpJson (Json.flt false mag e) ++ rest = c :: (t ++ rest) := by
        simp [dumpJson, hct]
      rw [hsplit, parseValue_digit c hcd]
      rw [show (c :: (t ++ rest)) = fltLit mag e ++ rest from by rw [hct]; rfl]
      rw [show (fltLit mag e ++ rest) =
        (if false then ['-'] else []) ++ (fltLit mag e ++ rest) from rfl]
      exact parseNumber_fltLit false mag e rest hrest
  | Json.str s, fuel, rest, hrest, hfuel => by
    obtain ⟨f, rfl⟩ : ∃ f, fuel = f + 1 :=
      ⟨fuel - 1, by have hp := fuelJson_pos (Json.str s); omega⟩
    rw [show dumpJson (Json.str s) ++ rest = '"' :: (escapeString s ++ '"' :: rest) from by
      simp [dumpJson, List.append_assoc]]
    rw [parseValue_quote, parseStringBody_escape s rest]
  | Json.arr [], fuel, rest, hrest, hfuel => by
    obtain ⟨f, rfl⟩ : ∃ f, fuel = f + 1 :=
      ⟨fuel - 1, by have hp := fuelJson_pos (Json.arr []); omega⟩
    rw [show dumpJson (Json.arr []) ++ rest = '[' :: ']' :: rest from by
      simp [dumpJson, dumpElems]]
    rw [parseValue_lbracket, skipWs_cons_false ']' rest (by decide)]
    rw [show headIs ']' (']' :: rest) = true from rfl]
    simp only [if_true, List.tail_cons]
  | Json.arr (j :: js), fuel, rest, hrest, hfuel => by
    obtain ⟨f, rfl⟩ : ∃ f, fuel = f + 1 :=
      ⟨fuel - 1, by have hp := fuelJson_pos (Json.arr (j :: js)); omega⟩
    have hfl : fuelList (j :: js) ≤ f := by
      have he : fuelJson (Json.arr (j :: js)) = fuelList (j :: js) + 1 := by simp [fuelJson]
      omega
    obtain ⟨c, t, hc, hw, h1, h2⟩ := dumpElems_cons_head j js
    rw [show dumpJson (Json.arr (j :: js)) ++ rest =
      '[' :: (dumpElems (j :: js) ++ ']' :: rest) from by simp [dumpJson, List.append_assoc]]
    rw [parseValue_lbracket, hc, List.cons_append, skipWs_cons_false c _ hw]
    rw [show headIs ']' (c :: (t ++ ']' :: rest)) = (c == ']') from rfl, h1]
    simp only [Bool.false_eq_true, if_false]
    rw [← List.cons_append, ← hc]
    have hel := parseElemsF_dump (j :: js) (by simp) f f rest [] (Or.inl rfl)
      (fun x hx => le_trans (fuelList_mem _ x hx) hfl)
      (le_trans (fuelList_length _) hfl)
    rw [List.nil_append] at hel
    rw [hel]
  | Json.obj [], fuel, rest, hrest, hfuel => by
    obtain ⟨f, rfl⟩ : ∃ f, fuel = f + 1 :=
      ⟨fuel - 1, by have hp := fuelJson_pos (Json.obj []); omega⟩
    rw [show dumpJson (Json.obj []) ++ rest = '\x7b' :: '\x7d' :: rest from by
      simp [dumpJson, dumpMembers]]
    rw [parseValue_lbrace, skipWs_cons_false '\x7d' rest (by decide)]
    rw [show headIs '\x7d' ('\x7d' :: rest) = true from rfl]
    simp only [if_true, List.tail_cons]
  | Json.obj ((k, v) :: ms2), fuel, rest, hrest, hfuel => by
    obtain ⟨f, rfl⟩ : ∃ f, fuel = f + 1 :=
      ⟨fuel - 1, by have hp := fuelJson_pos (Json.obj ((k, v) :: ms2)); omega⟩
    have hfl : fuelMembers ((k, v) :: ms2) ≤ f := by
      have he : fuelJson (Json.obj ((k, v) :: ms2)) = fuelMembers ((k, v) :: ms2) + 1 := by
        simp [fuelJson]
      omega
    obtain ⟨t2, ht2⟩ := dumpMembers_cons_head k v ms2
    rw [show dumpJson (Json.obj ((k, v) :: ms2)) ++ rest =
      '\x7b' :: (dumpMembers ((k, v) :: ms2) ++ '\x7d' :: rest) from by
      simp [dumpJson, List.append_assoc]]
    rw [parseValue_lbrace, ht2, List.cons_append, skipWs_cons_false '"' _ (by decide)]
    rw [show headIs '\x7d' ('"' :: (t2 ++ '\x7d' :: rest)) = ('"' == '\x7d') from rfl,
      show ('"' == '\x7d') = false from rfl]
    simp only [Bool.false_eq_true, if_false]
    rw [← List.cons_append, ← ht2]
    have hml := parseMembersF_dump ((k, v) :: ms2) (by simp) f f rest [] (Or.inl rfl)
      (fun p hp => le_trans (fuelMembers_mem _ p hp) hfl)
      (le_trans (fuelMembers_length _) hfl)
    rw [List.nil_append] at hml
    rw [hml]
termination_by j _ _ _ _ => sizeOf j

theorem parseElemsF_dump : ∀ (js : List Json), js ≠ [] → ∀ (fv fe : Nat) (rest : List Char)
    (pre : List Char), pre = [] ∨ pre = [' '] →
    (∀ x ∈ js, fuelJson x ≤ fv) → js.length ≤ fe →
    parseElemsF (parseValue fv) fe (pre ++ (dumpElems js ++ ']' :: rest)) = some (js, rest)
  | [], hne, _, _, _, _, _, _, _ => absurd rfl hne
  | [j], _, fv, fe, rest, pre, hpre, h1, h2 => by
    obtain ⟨fe', rfl⟩ : ∃ fe', fe = fe' + 1 := by
      refine ⟨fe - 1, ?_⟩
      simp only [List.length_cons] at h2
      omega
    have hde : dumpElems [j] = dumpJson j := by simp [dumpElems]
    have hpv : parseValue fv (pre ++ (dumpElems [j] ++ ']' :: rest)) = some (j, ']' :: rest) := by
      rw [parseValue_pre pre hpre, hde]
      exact parseValue_dump j fv (']' :: rest) rfl (h1 j (List.mem_cons_self j []))
    simp only [parseElemsF, hpv, skipWs_cons_false ']' rest (by decide),
      show (']' == ',') = false from rfl, show (']' == ']') = true from rfl,
      Bool.false_eq_true, if_false, if_true]
  | j :: j2 :: js2, _, fv, fe, rest, pre, hpre, h1, h2 => by
    obtain ⟨fe', rfl⟩ : ∃ fe', fe = fe' + 1 := by
      refine ⟨fe - 1, ?_⟩
      simp only [List.length_cons] at h2
      omega
    rw [show pre ++ (dumpElems (j :: j2 :: js2) ++ ']' :: rest) =
      pre ++ (dumpJson j ++ (',' :: ' ' :: (dumpElems (j2 :: js2) ++ ']' :: rest))) from by
      simp [dumpElems, List.append_assoc]]
    have hpv : parseValue fv
        (pre ++ (dumpJson j ++ (',' :: ' ' :: (dumpElems (j2 :: js2) ++ ']' :: rest)))) =
        some (j, ',' :: ' ' :: (dumpElems (j2 :: js2) ++ ']' :: rest)) := by
      rw [parseValue_pre pre hpre]
      exact parseValue_dump j fv _ rfl (h1 j (List.mem_cons_self _ _))
    have hrec : parseElemsF (parseValue fv) fe'
        (' ' :: (dumpElems (j2 :: js2) ++ ']' :: rest)) = some (j2 :: js2, rest) := by
      have hr := parseElemsF_dump (j2 :: js2) (by simp) fv fe' rest [' '] (Or.inr rfl)
        (fun x hx => h1 x (List.mem_cons_of_mem _ hx))
        (by simp only [List.length_cons] at h2 ⊢; omega)
      simpa using hr
    simp only [parseElemsF, hpv,
      skipWs_cons_false ',' (' ' :: (dumpElems (j2 :: js2) ++ ']' :: rest)) (by decide),
      show (',' == ',') = true from rfl, if_true, hrec]
termination_by js _ _ _ _ _ _ _ _ => sizeOf js

theorem parseMembersF_dump : ∀ (ms : List (List Char × Json)), ms ≠ [] →
    ∀ (fv fe : Nat) (rest : List Char) (pre : List Char), pre = [] ∨ pre = [' '] →
    (∀ p ∈ ms, fuelJson p.2 ≤ fv) → ms.length ≤ fe →
    parseMembersF (parseValue fv) fe (pre ++ (dumpMembers ms ++ '\x7d' :: rest)) =
      some (ms, rest)
  | [], hne, _, _, _, _, _, _, _ => absurd rfl hne
  | [(k, v)], _, fv, fe, rest, pre, hpre, h1, h2 => by
    obtain ⟨fe', rfl⟩ : ∃ fe', fe = fe' + 1 := by
      refine ⟨fe - 1, ?_⟩
      simp only [List.length_cons] at h2
      omega
    rw [show pre ++ (dumpMembers [(k, v)] ++ '\x7d' :: rest) =
      pre ++ ('"' :: (escapeString k ++ '"' ::
        (':' :: ' ' :: (dumpJson v ++ '\x7d' :: rest)))) from by
      simp [dumpMembers, List.cons_append, List.append_assoc]]
    have hskip : skipWs (pre ++ ('"' :: (escapeString k ++ '"' ::
        (':' :: ' ' :: (dumpJson v ++ '\x7d' :: rest))))) =
        '"' :: (escapeString k ++ '"' :: (':' :: ' ' :: (dumpJson v ++ '\x7d' :: rest))) := by
      rcases hpre with rfl | rfl
      · rw [List.nil_append]
        exact skipWs_cons_false '"' _ (by decide)
      · rw [List.singleton_append, skipWs_cons_true ' ' _ rfl]
        exact skipWs_cons_false '"' _ (by decide)
    have hpv : parseValue fv (' ' :: (dumpJson v ++ '\x7d' :: rest)) =
        some (v, '\x7d' :: rest) := by
      rw [parseValue_ws fv ' ' _ rfl]
      exact parseValue_dump v fv _ rfl (h1 (k, v) (List.mem_cons_self _ _))
    simp only [parseMembersF, hskip, show ('"' == '"') = true from rfl, if_true,
      parseStringBody_escape k (':' :: ' ' :: (dumpJson v ++ '\x7d' :: rest)),
      skipWs_cons_false ':' (' ' :: (dumpJson v ++ '\x7d' :: rest)) (by decide),
      show (':' == ':') = true from rfl, hpv,
      skipWs_cons_false '\x7d' rest (by decide),
      show ('\x7d' == ',') = false from rfl, show ('\x7d' == '\x7d') = true from rfl,
      Bool.false_eq_true, if_false]
  | (k, v) :: m2 :: ms2, _, fv, fe, rest, pre, hpre, h1, h2 => by
    obtain ⟨fe', rfl⟩ : ∃ fe', fe = fe' + 1 := by
      refine ⟨fe - 1, ?_⟩
      simp only [List.length_cons] at h2
      omega
    rw [show pre ++ (dumpMembers ((k, v) :: m2 :: ms2) ++ '\x7d' :: rest) =
      pre ++ ('"' :: (escapeString k ++ '"' :: (':' :: ' ' ::
        (dumpJson v ++ ',' :: ' ' :: (dumpMembers (m2 :: ms2) ++ '\x7d' :: rest))))) from by
      simp [dumpMembers, List.cons_append, List.append_assoc]]
    have hskip : skipWs (pre ++ ('"' :: (escapeString k ++ '"' :: (':' :: ' ' ::
        (dumpJson v ++ ',' :: ' ' :: (dumpMembers (m2 :: ms2) ++ '\x7d' :: rest)))))) =
        '"' :: (escapeString k ++ '"' :: (':' :: ' ' ::
          (dumpJson v ++ ',' :: ' ' :: (dumpMembers (m2 :: ms2) ++ '\x7d' :: rest)))) := by
      rcases hpre with rfl | rfl
      · rw [List.nil_append]
        exact skipWs_cons_false '"' _ (by decide)
      · rw [List.singleton_append, skipWs_cons_true ' ' _ rfl]
        exact skipWs_cons_false '"' _ (by decide)
    have hpv : parseValue fv
        (' ' :: (dumpJson v ++ ',' :: ' ' :: (dumpMembers (m2 :: ms2) ++ '\x7d' :: rest))) =
        some (v, ',' :: ' ' :: (dumpMembers (m2 :: ms2) ++ '\x7d' :: rest)) := by
      rw [parseValue_ws fv ' ' _ rfl]
      exact parseValue_dump v fv _ rfl (h1 (k, v) (List.mem_cons_self _ _))
    have hrec : parseMembersF (parseValue fv) fe'
        (' ' :: (dumpMembers (m2 :: ms2) ++ '\x7d' :: rest)) = some (m2 :: ms2, rest) := by
      have hr := parseMembersF_dump (m2 :: ms2) (by simp) fv fe' rest [' '] (Or.inr rfl)
        (fun p hp => h1 p (List.mem_cons_of_mem _ hp))
        (by simp only [List.length_cons] at h2 ⊢; omega)
      simpa using hr
    simp only [parseMembersF, hskip, show ('"' == '"') = true from rfl, if_true,
      parseStringBody_escape k (':' :: ' ' ::
        (dumpJson v ++ ',' :: ' ' :: (dumpMembers (m2 :: ms2) ++ '\x7d' :: rest))),
      skipWs_cons_false ':' (' ' ::
        (dumpJson v ++ ',' :: ' ' :: (dumpMembers (m2 :: ms2) ++ '\x7d' :: rest))) (by decide),
      show (':' == ':') = true from rfl, hpv,
      skipWs_cons_false ',' (' ' :: (dumpMembers (m2 :: ms2) ++ '\x7d' :: rest)) (by decide),
      show (',' == ',') = true from rfl, if_true, hrec]
termination_by ms _ _ _ _ _ _ _ _ => sizeOf ms
end

theorem intLit_ne_nil (i : Int) : intLit i ≠ [] := by
  rw [intLit]
  by_cases hi : i < 0
  · simp [hi]
  · simp [hi, natLit_ne_nil]

/-! ## The serialized document is long enough for the default fuel -/

mutual
theorem fuelJson_le_dump : ∀ j : Json, fuelJson j ≤ (dumpJson j).length
  | Json.null => by decide
  | Json.bool true => by decide
  | Json.bool false => by decide
  | Json.nan => by decide
  | Json.inf true => by decide
  | Json.inf false => by decide
  | Json.num n => by
    have h1 : intLit n ≠ [] := intLit_ne_nil n
    have h2 : 1 ≤ (intLit n).length := List.length_pos.mpr h1
    simp only [fuelJson, dumpJson]
    omega
  | Json.flt nb mag e => by
    obtain ⟨c, t, hct, _⟩ := fltLit_head mag e
    have h2 : 1 ≤ (fltLit mag e).length := by
      rw [hct]
      simp
    simp only [fuelJson, dumpJson, List.length_append]
    omega
  | Json.str s => by
    simp only [fuelJson, dumpJson, List.length_cons, List.length_append]
    omega
  | Json.arr es => by
    have h := fuelList_le_dump es
    simp only [fuelJson, dumpJson, List.length_cons, List.length_append]
    omega
  | Json.obj ms => by
    have h := fuelMembers_le_dump ms
    simp only [fuelJson, dumpJson, List.length_cons, List.length_append]
    omega
termination_by j => sizeOf j

theorem fuelList_le_dump : ∀ js : List Json, fuelList js ≤ (dumpElems js).length + 1
  | [] => by simp [fuelList]
  | [j] => by
    have h := fuelJson_le_dump j
    simp only [fuelList, dumpElems]
    omega
  | j :: j2 :: js2 => by
    have h1 := fuelJson_le_dump j
    have h2 := fuelList_le_dump (j2 :: js2)
    have hu : fuelList (j :: j2 :: js2) = max (fuelJson j) (fuelList (j2 :: js2)) + 1 := by
      simp [fuelList]
    have hd : dumpElems (j :: j2 :: js2) = dumpJson j ++ ',' :: ' ' :: dumpElems (j2 :: js2) := by
      simp [dumpElems]
    rw [hu, hd]
    simp only [List.length_append, List.length_cons]
    omega
termination_by js => sizeOf js

theorem fuelMembers_le_dump : ∀ ms : List (List Char × Json),
    fuelMembers ms ≤ (dumpMembers ms).length + 1
  | [] => by simp [fuelMembers]
  | [(k, v)] => by
    have h := fuelJson_le_dump v
    simp only [fuelMembers, dumpMembers, List.length_append, List.length_cons]
    omega
  | (k, v) :: m2 :: ms2 => by
    have h1 := fuelJson_le_dump v
    have h2 := fuelMembers_le_dump (m2 :: ms2)
    have hu : fuelMembers ((k, v) :: m2 :: ms2) =
        max (fuelJson v) (fuelMembers (m2 :: ms2)) + 1 := by
      simp [fuelMembers]
    have hd : dumpMembers ((k, v) :: m2 :: ms2) =
        ('"' :: escapeString k ++ '"' :: ':' :: ' ' :: dumpJson v) ++
          ',' :: ' ' :: dumpMembers (m2 :: ms2) := by
      simp [dumpMembers]
    rw [hu, hd]
    simp only [List.length_append, List.length_cons]
    omega
termination_by ms => sizeOf ms
end

/-- The serializer inverts through the parser: `json.loads` recovers the
exact document `json.dumps` wrote. -/
theorem jsonParse_dump (j : Json) : jsonParse (dumpJson j) = some j := by
  have h1 : fuelJson j ≤ (dumpJson j).length + 1 :=
    le_trans (fuelJson_le_dump j) (Nat.le_succ _)
  have h2 := parseValue_dump j ((dumpJson j).length + 1) [] rfl h1
  rw [List.append_nil] at h2
  simp only [jsonParse, h2]
  rfl

/-! ## The dumped float text is exactly the CPython repr -/

theorem digits_mul_pow10 (d : Nat) (hd : d ≠ 0) :
    ∀ m : Nat, Nat.digits 10 (d * 10 ^ m) = List.replicate m 0 ++ Nat.digits 10 d := by
  intro m
  induction m with
  | zero => simp
  | succ k ih =>
    have hdp : 0 < d := Nat.pos_of_ne_zero hd
    have hpos : 0 < d * 10 ^ (k + 1) := by positivity
    rw [Nat.digits_def' (by norm_num : (1 : Nat) < 10) hpos]
    have h1 : d * 10 ^ (k + 1) % 10 = 0 := by
      rw [pow_succ, ← mul_assoc]
      omega
    have h2 : d * 10 ^ (k + 1) / 10 = d * 10 ^ k := by
      rw [pow_succ, ← mul_assoc]
      omega
    rw [h1, h2, ih, List.replicate_succ]
    rfl

theorem natLit_mul_pow10 (d m : Nat) (hd : d ≠ 0) :
    natLit (d * 10 ^ m) = natLit d ++ List.replicate m '0' := by
  have hdp : 0 < d := Nat.pos_of_ne_zero hd
  have hne : d * 10 ^ m ≠ 0 := by positivity
  rw [natLit, if_neg hne, natLit, if_neg hd,
    natDigitsRev_eq_digits _ _ le_rfl, natDigitsRev_eq_digits _ _ le_rfl,
    digits_mul_pow10 d hd m, List.map_append, List.reverse_append,
    List.map_replicate, List.reverse_replicate]

theorem fltLit_fixed_pad (d m : Nat) (hd : d ≠ 0) (hm : 1 ≤ m)
    (h16 : (natLit d).length + m ≤ 17) :
    fltLit (d * 10 ^ m) (-1) = natLit d ++ (List.replicate (m - 1) '0' ++ ['.', '0']) := by
  have hds : natLit (d * 10 ^ m) = natLit d ++ List.replicate m '0' := natLit_mul_pow10 d m hd
  have hkp : 1 ≤ (natLit d).length := List.length_pos.mpr (natLit_ne_nil d)
  have hlen : (natLit (d * 10 ^ m)).length = (natLit d).length + m := by
    rw [hds, List.length_append, List.length_replicate]
  have hc1 : (-1 : Int) < 0 ∧ -4 < ((natLit (d * 10 ^ m)).length : Int) + (-1) ∧
      ((natLit (d * 10 ^ m)).length : Int) + (-1) ≤ 16 := by
    rw [hlen]
    refine ⟨by norm_num, by omega, by omega⟩
  have hc2 : ((-1 : Int)).natAbs < (natLit (d * 10 ^ m)).length := by
    rw [hlen]
    simp only [Int.natAbs_neg, Int.natAbs_one]
    omega
  rw [fltLit, if_pos hc1, fixedText, if_pos hc2,
    show ((-1 : Int)).natAbs = 1 from rfl, hds]
  rw [show (natLit d ++ List.replicate m '0').length - 1 =
    (natLit d).length + (m - 1) from by rw [List.length_append, List.length_replicate]; omega]
  rw [List.take_append_eq_append_take, List.drop_append_eq_append_drop,
    List.take_of_length_le (by omega), List.drop_eq_nil_of_le (by omega),
    show (natLit d).length + (m - 1) - (natLit d).length = m - 1 from by omega,
    List.take_replicate, List.drop_replicate,
    show (m - 1) ⊓ m = m - 1 from by omega, show m - (m - 1) = 1 from by omega]
  simp

theorem fltLit_fixed_nopad (d : Nat) (e : Int) (he : e < 0)
    (hlo : -4 < ((natLit d).length : Int) + e) (hhi : ((natLit d).length : Int) + e ≤ 16) :
    fltLit d e = fixedText (natLit d) e.natAbs := by
  rw [fltLit, if_pos ⟨he, hlo, hhi⟩]

theorem fltLit_sci (mag : Nat) (e : Int)
    (h : ¬(e < 0 ∧ -4 < ((natLit mag).length : Int) + e ∧ ((natLit mag).length : Int) + e ≤ 16)) :
    fltLit mag e = sciText (natLit mag) (((natLit mag).length : Int) + e) := by
  rw [fltLit, if_neg h]

/-- The serializer renders the `Json` image of any Python float as
exactly the text CPython's `json.dumps` emits for that float: `floatstr`,
which is `repr` on finite values. -/
theorem dumpJson_pyFloat : ∀ f : PyFloat, dumpJson (pyFloatJson f) = floatText f
  | PyFloat.nan => rfl
  | PyFloat.inf true => rfl
  | PyFloat.inf false => rfl
  | PyFloat.finite neg d p => by
    have hflt : ∀ (mag : Nat) (e : Int), dumpJson (Json.flt neg mag e) =
        (if neg then ['-'] else []) ++ fltLit mag e := by
      intro mag e
      cases neg <;> rfl
    by_cases hd : d = 0
    · subst hd
      cases neg <;> rfl
    · have hkp : 1 ≤ (natLit d).length := List.length_pos.mpr (natLit_ne_nil d)
      rw [pyFloatJson, if_neg hd, floatText, reprFinite, if_neg hd]
      by_cases hin : -4 < p ∧ p ≤ 16
      · by_cases hpad : ((natLit d).length : Int) ≤ p
        · rw [if_pos ⟨hin, hpad⟩, if_pos hin, if_pos hpad, hflt]
          have hm1 : 1 ≤ (p - (natLit d).length + 1).toNat := by omega
          have hmv : ((p - (natLit d).length + 1).toNat : Int) =
              p - (natLit d).length + 1 := Int.toNat_of_nonneg (by omega)
          rw [fltLit_fixed_pad d (p - (natLit d).length + 1).toNat hd hm1 (by omega)]
          have hrep : (p - ((natLit d).length : Int)).toNat =
              (p - (natLit d).length + 1).toNat - 1 := by omega
          rw [hrep]
          simp [List.append_assoc]
        · rw [if_neg (fun hc => hpad hc.2), if_pos hin, if_neg hpad, hflt]
          have he : p - ((natLit d).length : Int) < 0 := by omega
          rw [fltLit_fixed_nopad d (p - (natLit d).length) he (by omega) (by omega)]
          rw [fixedText]
          by_cases hp0 : 0 < p
          · rw [if_pos (by omega : (p - ((natLit d).length : Int)).natAbs < (natLit d).length),
              if_pos hp0]
            have h1 : (natLit d).length - (p - ((natLit d).length : Int)).natAbs = p.toNat := by
              omega
            rw [h1]
          · rw [if_neg (by omega : ¬(p - ((natLit d).length : Int)).natAbs < (natLit d).length),
              if_neg hp0]
            have h1 : (p - ((natLit d).length : Int)).natAbs - (natLit d).length =
                (-p).toNat := by omega
            rw [h1]
      · rw [if_neg (fun hc => hin hc.1), if_neg hin, hflt]
        rw [fltLit_sci d (p - (natLit d).length) (by omega)]
        have h1 : ((natLit d).length : Int) + (p - (natLit d).length) = p := by omega
        rw [h1]

/-- Concrete rows of the repr layout, matching CPython outputs:
`repr(2900.0)`, `repr(123.456)`, `repr(0.0001)`, `repr(1e-05)`,
`repr(1.5e+300)`, `repr(1e16)`, `repr(0.0)`. -/
theorem reprFinite_examples :
    reprFinite 29 4 = strLit "2900.0" ∧ reprFinite 123456 3 = strLit "123.456" ∧
    reprFinite 1 (-3) = strLit "0.0001" ∧ reprFinite 1 (-4) = strLit "1e-05" ∧
    reprFinite 15 301 = strLit "1.5e+300" ∧ reprFinite 1 17 = strLit "1e+16" ∧
    reprFinite 0 1 = strLit "0.0" ∧ floatText (PyFloat.finite true 0 1) = strLit "-0.0" :=
  ⟨rfl, rfl, rfl, rfl, rfl, rfl, rfl, rfl⟩

/-- The spec's own example payload fragment: a dict with a float net pay
of 2900.00 serializes with the float printed `2900.0`, as `json.dumps`
renders it. -/
theorem buildAppPayload_float_example :
    buildAppPayload (Application.ofDict
      [(PyKey.str (strLit "paystub"),
        PyValue.dict [(PyKey.str (strLit "net_pay"),
          PyValue.float (PyFloat.finite false 29 4))])]) =
      strLit "\x7b\"paystub\": \x7b\"net_pay\": 2900.0\x7d\x7d" := rfl

/-! ## Claims about the request builder -/

/-- Claim C4: a string argument that does not parse as JSON is never
rejected; the builder wraps it, and its output parses back to an object
whose `raw_application` field holds the original string exactly.  The
builder is a total function, so no error can be raised. -/
theorem claim4_wrap_invalid (s : List Char) (h : jsonParse s = Option.none) :
    jsonParse (buildAppPayload (Application.ofStr s)) =
      some (Json.obj [(strLit "raw_application", Json.str s)]) := by
  simp only [buildAppPayload, h]
  exact jsonParse_dump (Json.obj [(strLit "raw_application", Json.str s)])

/-- Witness for C4 at the malformed payload "not json". -/
theorem claim4_witness :
    jsonParse (strLit "not json") = Option.none ∧
    jsonParse (buildAppPayload (Application.ofStr (strLit "not json"))) =
      some (Json.obj [(strLit "raw_application", Json.str (strLit "not json"))]) :=
  ⟨rfl, claim4_wrap_invalid (strLit "not json") rfl⟩

/-- Claim C5: a string argument that already parses as JSON is passed
through character for character, with no re-serialization. -/
theorem claim5_passthrough (s : List Char) (j : Json) (h : jsonParse s = some j) :
    buildAppPayload (Application.ofStr s) = s := by
  simp only [buildAppPayload, h]

/-- Witness for C5 at the valid JSON payload "[1, 2]". -/
theorem claim5_witness :
    jsonParse (strLit "[1, 2]") = some (Json.arr [Json.num 1, Json.num 2]) ∧
    buildAppPayload (Application.ofStr (strLit "[1, 2]")) = strLit "[1, 2]" :=
  ⟨rfl, claim5_passthrough _ (Json.arr [Json.num 1, Json.num 2]) rfl⟩

/-- Claim C6: for a dict argument the builder's output is a non-empty
valid-JSON string, and parsing it back yields exactly the input content
up to the serializer's coercions (the `pyToJson` embedding): `default=str`
for non-serializable values, string coercion of non-string keys, and the
exact decimal reading of `repr` for floats. -/
theorem claim6_dict_roundtrip (entries : List (PyKey × PyValue)) :
    buildAppPayload (Application.ofDict entries) ≠ [] ∧
    jsonParse (buildAppPayload (Application.ofDict entries)) =
      some (pyToJson (PyValue.dict entries)) := by
  constructor
  · simp only [buildAppPayload]
    obtain ⟨c, t, hc, _, _, _⟩ := dumpJson_head (pyToJson (PyValue.dict entries))
    rw [hc]
    simp
  · simp only [buildAppPayload]
    exact jsonParse_dump _

/-! ## Claims about construction, tools and schemas -/

/-- Claim C7: when `GEMINI_API_KEY` resolves to nothing in the
environment, the constructor reports the configuration error at once; no
`OpenAIClient` is built, since the success state is only created in the
other branch of `narrativeAgentInit`. -/
theorem claim7_missing_credential (env : List Char → Option (List Char))
    (model : List Char) (temperature : Rat)
    (h : env (strLit "GEMINI_API_KEY") = Option.none) :
    narrativeAgentInit env model temperature =
      Except.error (strLit "GEMINI_API_KEY not set. Add it to your environment or .env") := by
  simp [narrativeAgentInit, h, envTruthy]

/-- Witness for C7 in the empty environment. -/
theorem claim7_witness :
    narrativeAgentInit (fun _ => Option.none) (strLit "gemini-1.5-turbo") (1 / 5) =
      Except.error (strLit "GEMINI_API_KEY not set. Add it to your environment or .env") :=
  claim7_missing_credential _ _ _ rfl

/-- Claim C8: both tool endpoints return their success status for every
input without verifying anything, and the shared `try`/`except` shape
converts any exception of a body into an error-shaped response instead of
propagating it. -/
theorem claim8_stub_tools (paystub idDoc : PyValue) (fmt : List Char → List Char)
    (e : List Char) :
    verify_paystub paystub = ToolResponse.status (strLit "Paystub verified successfully") ∧
    verify_id idDoc = ToolResponse.status (strLit "ID verified successfully") ∧
    toolGuard fmt (Except.error e) = ToolResponse.error (fmt e) :=
  ⟨rfl, rfl, rfl⟩

/-- Claim C9: `ApplicantProfile` construction succeeds exactly when both
`first_name` and `last_name` are supplied, and carries them into the
record; `Employment` construction succeeds for an absent `pay_frequency`
or one drawn from the fixed enumeration, and fails for any other value or
for a missing employer name. -/
theorem claim9_schema_validation (fn ln : List Char) (fnO lnO : Option (List Char))
    (dob : Option PyDate) (s4 eml phn a1 act ast apc : Option (List Char))
    (emp : Option Employment) (ps : Option (List PaystubItem))
    (ds : Option (List DocumentEvidence))
    (en : List Char) (sd : Option PyDate) (pf : Option (List Char)) (asc : Option Rat) :
    mkApplicantProfile (some fn) (some ln) dob s4 eml phn a1 act ast apc emp ps ds =
      Except.ok
        { first_name := fn, last_name := ln, dob := dob, ssn_last4 := s4,
          email := eml, phone := phn, address_line1 := a1, address_city := act,
          address_state := ast, address_postal_code := apc, employment := emp,
          paystubs := ps.getD [], documents := ds.getD [] } ∧
    (mkApplicantProfile fnO lnO dob s4 eml phn a1 act ast apc emp ps ds).isOk =
      (fnO.isSome && lnO.isSome) ∧
    mkEmployment (some en) sd pf asc =
      (if payFreqOk pf then
        Except.ok
          { employer_name := en, start_date := sd, pay_frequency := pf,
            annual_salary_claimed := asc }
       else Except.error (strLit "pay_frequency: value is not a permitted literal")) ∧
    (mkEmployment Option.none sd pf asc).isOk = false := by
  refine ⟨rfl, ?_, rfl, rfl⟩
  cases fnO <;> cases lnO <;> rfl

end Capstone
